import Mathlib

/-!
Verification of the DealsScannerPro offer-extraction pipeline.

Shallow embedding of the Python sources:
  - services/document_intelligence.py (retailer and validity detection)
  - scanners/netto_scanner.py (price locator, block clusterer, duplicates,
    validity period)
  - services/unit_price.py (unit-price derivation)
  - services/confidence.py (confidence scoring)
  - services/sku_key.py (SKU key generation and parsing)

Numbers are embedded as rationals, Python `None` as `Option.none`, and
Python exceptions as an outer `Option` layer where relevant.  String
operations (`lower`, `strip`, substring membership) are embedded over
`List Char` restricted to the character ranges the sources actually use
(ASCII plus the Danish letters appearing in the keyword tables).
-/

namespace PyStr

/-- ASCII whitespace, the characters `str.strip` and the regex class matched
by the scanner inputs remove. -/
def isWs (c : Char) : Bool :=
  c = ' ' || c = '\t' || c = '\n' || c = '\r' || c = '\x0b' || c = '\x0c'

/-- `str.lower` on the alphabet the sources use: ASCII letters plus the
Danish capitals appearing in keyword tables. -/
def lowerChar (c : Char) : Char :=
  if 'A' ≤ c ∧ c ≤ 'Z' then Char.ofNat (c.toNat + 32)
  else if c = 'Æ' then 'æ'
  else if c = 'Ø' then 'ø'
  else if c = 'Å' then 'å'
  else c

def pyLower (s : String) : String := ⟨s.data.map lowerChar⟩

def stripList (l : List Char) : List Char :=
  ((l.dropWhile isWs).reverse.dropWhile isWs).reverse

/-- `str.strip()`. -/
def pyStrip (s : String) : String := ⟨stripList s.data⟩

def leadsList : List Char → List Char → Bool
  | [], _ => true
  | _ :: _, [] => false
  | a :: as, b :: bs => a = b && leadsList as bs

def hasSubList (needle : List Char) : List Char → Bool
  | [] => leadsList needle []
  | c :: rest => leadsList needle (c :: rest) || hasSubList needle rest

/-- Python `needle in hay` on strings. -/
def pyContains (hay needle : String) : Bool := hasSubList needle.data hay.data

def isDigitChar (c : Char) : Bool := '0' ≤ c && c ≤ '9'

/-- Python `str.isdigit()` restricted to ASCII digits (the only digits the
scanned spans contain). -/
def pyIsDigit (s : String) : Bool := s ≠ "" && s.data.all isDigitChar

def charVal (c : Char) : ℕ := c.toNat - '0'.toNat

def digitsToNat (l : List Char) : ℕ := l.foldl (fun acc c => 10 * acc + charVal c) 0

end PyStr

open PyStr

/-- Python `round` (round-half-to-even) on a rational, to an integer. -/
def pyRoundInt (x : ℚ) : ℤ :=
  let f := ⌊x⌋
  let frac := x - (f : ℚ)
  if frac < 1/2 then f
  else if 1/2 < frac then f + 1
  else if f % 2 = 0 then f else f + 1

/-- Python `round(x, 2)`. -/
def pyRound2 (x : ℚ) : ℚ := (pyRoundInt (x * 100) : ℚ) / 100

namespace DocIntel

/-- One value of the retailer table of
`DocumentIntelligenceService._detect_retailer`: keyword list and
confidence. -/
structure RetailerEntry where
  keywords : List String
  conf : ℚ
deriving DecidableEq

/-- The `retailers` dict literal of `_detect_retailer`, entry by entry as
written in the source.  The keys `rema` and `spar` occur twice. -/
def retailersLiteral : List (String × RetailerEntry) :=
  [ ("rema", ⟨["rema 1000", "rema1000"], 98/100⟩),
    ("foetex", ⟨["føtex", "foetex"], 98/100⟩),
    ("bilka", ⟨["bilka"], 98/100⟩),
    ("superbrugsen", ⟨["superbrugsen", "super brugsen"], 98/100⟩),
    ("kvickly", ⟨["kvickly"], 98/100⟩),
    ("365discount", ⟨["365discount", "365 discount", "coop 365"], 98/100⟩),
    ("lidl", ⟨["lidl"], 98/100⟩),
    ("aldi", ⟨["aldi"], 98/100⟩),
    ("meny", ⟨["meny"], 95/100⟩),
    ("irma", ⟨["irma"], 95/100⟩),
    ("spar", ⟨["eurospar"], 98/100⟩),
    ("netto", ⟨["netto"], 95/100⟩),
    ("spar", ⟨["spar "], 90/100⟩),
    ("rema", ⟨["rema"], 90/100⟩) ]

/-- Python dict insertion: an existing key keeps its position but takes the
new value; a new key is appended. -/
def dictInsert (d : List (String × RetailerEntry)) (kv : String × RetailerEntry) :
    List (String × RetailerEntry) :=
  if d.any (fun p => p.1 = kv.1) then
    d.map (fun p => if p.1 = kv.1 then (p.1, kv.2) else p)
  else d ++ [kv]

/-- The `retailers` dict as Python evaluates the literal (duplicate keys
collapse, the last value wins while the first position is kept). -/
def retailersDict : List (String × RetailerEntry) :=
  retailersLiteral.foldl dictInsert []

/-- `DocumentIntelligenceService._detect_retailer`. -/
def detect_retailer (text : String) : Option String × ℚ :=
  let textLower := pyLower text
  match retailersDict.findSome?
      (fun p => if p.2.keywords.any (fun kw => pyContains textLower kw)
                then some (p.1, p.2.conf) else none) with
  | some r => (some r.1, r.2)
  | none =>
    if pyContains textLower "salling" then (some "netto", 70/100)
    else (none, 0)

end DocIntel

namespace Confidence

/-- Truthiness of an optional number (Python: `None` and `0` are falsy). -/
def qTruthy : Option ℚ → Bool
  | none => false
  | some x => x != 0

/-- Truthiness of an optional string (Python: `None` and `""` are falsy). -/
def sTruthy : Option String → Bool
  | none => false
  | some s => s != ""

/-- `ConfidenceInput` of services/confidence.py. -/
structure ConfidenceInput where
  detection_confidence : ℚ := 0
  has_price : Bool := false
  price_value : Option ℚ := none
  has_amount : Bool := false
  net_amount_value : Option ℚ := none
  net_amount_unit : Option String := none
  gpt_confidence : ℚ := 0
  brand_norm : Option String := none
  product_norm : Option String := none
  category : Option String := none
  container_type : Option String := none
  has_unit_price : Bool := false

/-- The tuple of known units tested by the amount factor of
`calculate_confidence`. -/
def knownAmountUnits : List String :=
  ["g", "kg", "ml", "cl", "dl", "l", "liter", "stk", "stk.", "pk", "pak"]

/-- `ConfidenceResult` of services/confidence.py; the `details` dict is
embedded as one field per key. -/
structure ConfidenceResult where
  overall : ℚ
  price_detail : ℚ
  detection_detail : ℚ
  gpt_detail : ℚ
  amount_detail : ℚ
  completeness_detail : ℚ
  reasons : List String
  can_auto_publish : Bool
deriving DecidableEq

/-- `calculate_confidence` of services/confidence.py.  Weights 0.35 / 0.25 /
0.20 / 0.15 / 0.05; reason strings are carried verbatim (the one
interpolated reason is built by concatenation). -/
def calculate_confidence (input : ConfidenceInput) : ConfidenceResult :=
  let priceTruthy := input.has_price && qTruthy input.price_value
      && decide (0 < input.price_value.getD 0)
  let priceScore : ℚ :=
    if priceTruthy then
      if input.price_value.getD 0 < 1 then 7/10
      else if 5000 < input.price_value.getD 0 then 6/10
      else 1
    else 0
  let priceReasons : List String :=
    if priceTruthy then
      if input.price_value.getD 0 < 1 then ["Mistænkelig lav pris (<1 kr)"]
      else if 5000 < input.price_value.getD 0 then ["Mistænkelig høj pris (>5000 kr)"]
      else []
    else ["Ingen pris fundet"]
  let detectionScore := min 1 (max 0 input.detection_confidence)
  let detectionReasons : List String :=
    if detectionScore < 1/2 then ["Lav blok-detektions confidence"] else []
  let gpt0 := min 1 (max 0 input.gpt_confidence)
  let gpt1 :=
    if sTruthy input.product_norm ∧ 3 ≤ (input.product_norm.getD "").length
    then max gpt0 (6/10) else gpt0
  let gpt2 := if sTruthy input.brand_norm then min 1 (gpt1 + 1/10) else gpt1
  let gptScore :=
    if sTruthy input.category ∧ input.category.getD "" ≠ "Andet"
    then min 1 (gpt2 + 5/100) else gpt2
  let gptReasons : List String :=
    if gptScore < 1/2 then ["Lav GPT-normaliserings confidence"] else []
  let amountPresent := input.has_amount && qTruthy input.net_amount_value
      && sTruthy input.net_amount_unit
  let amountScore : ℚ :=
    if amountPresent then
      if input.net_amount_value.getD 0 ≤ 0 then 3/10
      else if pyLower (input.net_amount_unit.getD "") ∉ knownAmountUnits then 7/10
      else 1
    else 1/2
  let amountReasons : List String :=
    if amountPresent then
      if input.net_amount_value.getD 0 ≤ 0 then ["Ugyldig mængde-værdi"]
      else if pyLower (input.net_amount_unit.getD "") ∉ knownAmountUnits then
        ["Ukendt mængde-enhed: " ++ input.net_amount_unit.getD ""]
      else []
    else ["Ingen mængde fundet"]
  let completenessFlags : List Bool :=
    [input.has_price, input.product_norm ≠ none, input.has_amount,
     input.container_type ≠ none, input.has_unit_price]
  let completenessScore : ℚ :=
    ((completenessFlags.filter id).length : ℚ) / (completenessFlags.length : ℚ)
  let overall0 := pyRound2
    (priceScore * (35/100) + detectionScore * (25/100) + gptScore * (20/100) +
     amountScore * (15/100) + completenessScore * (5/100))
  let overall1 := if ¬ input.has_price then min overall0 (3/10) else overall0
  let overall := if ¬ sTruthy input.product_norm then min overall1 (1/2) else overall1
  let reasons0 := priceReasons ++ detectionReasons ++ gptReasons ++ amountReasons
  { overall := overall
    price_detail := priceScore
    detection_detail := detectionScore
    gpt_detail := gptScore
    amount_detail := amountScore
    completeness_detail := completenessScore
    reasons := if reasons0 = [] then ["Alle felter OK"] else reasons0
    can_auto_publish := decide (9/10 ≤ overall) }

/-- `get_status_from_confidence` of services/confidence.py. -/
def get_status_from_confidence (confidence : ℚ) : String :=
  if 9/10 ≤ confidence then "published"
  else if 1/2 ≤ confidence then "needs_review"
  else "low_confidence"

end Confidence

namespace Netto

/-- One record of `ScannerV2._seen_products`. -/
structure SeenRecord where
  count : ℕ
  first_page : Option ℕ
deriving DecidableEq

/-- `ScannerV2._seen_products`: an insertion-ordered map.  The Python key is
the string "produkt.lower().strip()_pris"; it is embedded as the pair of
the lowered, stripped product and the price (the underscore encoding is
injective because the price renders without an underscore). -/
abbrev SeenMap := List ((String × ℚ) × SeenRecord)

def seenFind (m : SeenMap) (k : String × ℚ) : Option SeenRecord :=
  (m.find? (fun p => p.1 = k)).map (·.2)

def seenSet (m : SeenMap) (k : String × ℚ) (v : SeenRecord) : SeenMap :=
  if m.any (fun p => p.1 = k) then
    m.map (fun p => if p.1 = k then (k, v) else p)
  else m ++ [(k, v)]

/-- Return value of `ScannerV2._check_duplicate`. -/
structure DupInfo where
  is_duplicate : Bool
  first_seen_page : Option ℕ := none
  occurrence : Option ℕ := none
deriving DecidableEq

/-- `ScannerV2._check_duplicate`: on a repeated `(lowercased product, price)`
key it bumps the count and reports the stored first page; on a fresh key it
stores `(count 1, first_page None)`. -/
def check_duplicate (seen : SeenMap) (produkt : String) (pris : ℚ) :
    DupInfo × SeenMap :=
  let key := (pyStrip (pyLower produkt), pris)
  match seenFind seen key with
  | some r =>
    let r2 : SeenRecord := { r with count := r.count + 1 }
    ({ is_duplicate := true, first_seen_page := r2.first_page,
       occurrence := some r2.count }, seenSet seen key r2)
  | none => ({ is_duplicate := false }, seenSet seen key ⟨1, none⟩)

/-- The duplicate-handling fragment of `ScannerV2._block_to_offer`
(netto_scanner.py lines 739-743): call `_check_duplicate` with
`total_pris or 0`, then on a duplicate overwrite `first_seen_page` with the
current block page, else store the current page as the key's first page.
Returns the `dup_info` attached to the emitted offer and the new state; the
offer is emitted in both cases. -/
def applyDupInfo (seen : SeenMap) (produkt : String) (total_pris : Option ℚ)
    (page : ℕ) : DupInfo × SeenMap :=
  let pris : ℚ := match total_pris with
    | none => 0
    | some p => if p = 0 then 0 else p
  let key := (pyStrip (pyLower produkt), pris)
  let res := check_duplicate seen produkt pris
  if res.1.is_duplicate then
    ({ res.1 with first_seen_page := some page }, res.2)
  else
    (res.1,
     match seenFind res.2 key with
     | some r => seenSet res.2 key { r with first_page := some page }
     | none => res.2)

end Netto

namespace Dates

/-- A calendar date as the Python `datetime` constructor receives it. -/
structure Ymd where
  year : ℤ
  month : ℕ
  day : ℕ
deriving DecidableEq

/-- Gregorian leap-year rule, as implemented by Python's `datetime`. -/
def isLeap (y : ℤ) : Bool := (y % 4 = 0 && y % 100 ≠ 0) || y % 400 = 0

def daysInMonth (y : ℤ) (m : ℕ) : ℕ :=
  if m = 2 then (if isLeap y then 29 else 28)
  else if m = 4 ∨ m = 6 ∨ m = 9 ∨ m = 11 then 30
  else 31

/-- Whether `datetime(y, m, d)` constructs without raising `ValueError`. -/
def validDate (y : ℤ) (m d : ℕ) : Bool :=
  1 ≤ m && m ≤ 12 && 1 ≤ d && d ≤ daysInMonth y m

/-- Rata-die number of January 1 of a year (proleptic Gregorian; day 1 =
January 1 of year 1, which `datetime` places on a Monday). -/
def jan1RD (y : ℤ) : ℤ :=
  365 * (y - 1) + (y - 1) / 4 - (y - 1) / 100 + (y - 1) / 400 + 1

/-- `datetime.weekday()` on a rata-die number: Monday = 0 … Sunday = 6. -/
def pyWeekday (rd : ℤ) : ℤ := (rd - 1) % 7

end Dates

namespace Netto

open Dates

/-- The `D/M - D/M` branch of `ScannerV2._extract_validity_period`
(netto_scanner.py lines 438-450), after the regex has captured the four
numbers: both dates are formatted in the current year, except that the end
year is bumped exactly when `m1 > m2` (months compared, days ignored; the
day/month values are interpolated into the date strings unvalidated). -/
def extract_validity_numeric (d1 m1 d2 m2 : ℕ) (year : ℤ) : Ymd × Ymd :=
  if m2 < m1 then (⟨year, m1, d1⟩, ⟨year + 1, m2, d2⟩)
  else (⟨year, m1, d1⟩, ⟨year, m2, d2⟩)

/-- The `uge X` branch of `ScannerV2._extract_validity_period`
(netto_scanner.py lines 466-482): branch on January 1's weekday to find a
"first Monday", then step `week - 1` weeks.  Dates are rata-die numbers. -/
def extract_validity_week (year week : ℤ) : ℤ × ℤ :=
  let jan1 := jan1RD year
  let firstMonday :=
    if pyWeekday jan1 ≤ 3 then jan1 - pyWeekday jan1
    else jan1 + (7 - pyWeekday jan1)
  let start := firstMonday + 7 * (week - 1)
  (start, start + 6)

end Netto

namespace DocIntel

open Dates

/-- The `DD/MM - DD/MM` branch of
`DocumentIntelligenceService._detect_validity`
(document_intelligence.py lines 365-390), after the regex has captured the
four numbers: build both dates in the current year (a `ValueError` from an
invalid date, including a year-bump onto a non-leap February 29, aborts the
branch, modelled as `none`), and bump the end year exactly when the full
end date is earlier than the start date. -/
def detect_validity_numeric (d1 m1 d2 m2 : ℕ) (year : ℤ) :
    Option (Ymd × Ymd) :=
  if validDate year m1 d1 && validDate year m2 d2 then
    if m2 < m1 ∨ (m2 = m1 ∧ d2 < d1) then
      if validDate (year + 1) m2 d2 then
        some (⟨year, m1, d1⟩, ⟨year + 1, m2, d2⟩)
      else none
    else some (⟨year, m1, d1⟩, ⟨year, m2, d2⟩)
  else none

/-- The `uge XX` branch of `DocumentIntelligenceService._detect_validity`
(document_intelligence.py lines 348-363): Monday of the week containing
January 4, then step `week - 1` weeks.  Dates are rata-die numbers. -/
def detect_validity_week (year week : ℤ) : ℤ × ℤ :=
  let jan4 := jan1RD year + 3
  let weekStart := jan4 - pyWeekday jan4
  let start := weekStart + 7 * (week - 1)
  (start, start + 6)

end DocIntel

namespace UnitPrice

/-- `UnitPrice` dataclass of services/unit_price.py. -/
structure UPrice where
  value : ℚ
  unit : String
deriving DecidableEq

/-- `calculate_unit_price` of services/unit_price.py.  Python truthiness:
`not price_value or price_value <= 0` rejects `None`, `0` and negatives,
so the guard is `p ≤ 0`; likewise for the amount value; `not
net_amount_unit` rejects `None` and the empty string; `(deposit_value or
0)` maps `None` (and `0`) to 0; `(pack_count or 1)` maps `None` and `0`
to 1. -/
def effectivePrice (p : ℚ) (deposit_value : Option ℚ) : ℚ :=
  if p - deposit_value.getD 0 ≤ 0 then p else p - deposit_value.getD 0

def packFactor : Option ℤ → ℚ
  | none => 1
  | some n => if n = 0 then 1 else (n : ℚ)

def calculate_unit_price (price_value deposit_value net_amount_value : Option ℚ)
    (net_amount_unit : Option String) (pack_count : Option ℤ) : Option UPrice :=
  match price_value with
  | none => none
  | some p =>
    if p ≤ 0 then none else
    match net_amount_value with
    | none => none
    | some v =>
      if v ≤ 0 then none else
      match net_amount_unit with
      | none => none
      | some u0 =>
        if u0 = "" then none else
        let eff := effectivePrice p deposit_value
        let total := v * packFactor pack_count
        let u := pyStrip (pyLower u0)
        if u = "ml" ∨ u = "milliliter" then
          some ⟨pyRound2 (eff / (total / 1000)), "kr/L"⟩
        else if u = "cl" then
          some ⟨pyRound2 (eff / (total / 100)), "kr/L"⟩
        else if u = "dl" then
          some ⟨pyRound2 (eff / (total / 10)), "kr/L"⟩
        else if u = "l" ∨ u = "liter" then
          some ⟨pyRound2 (eff / total), "kr/L"⟩
        else if u = "g" ∨ u = "gram" then
          some ⟨pyRound2 (eff / (total / 1000)), "kr/kg"⟩
        else if u = "kg" ∨ u = "kilo" ∨ u = "kilogram" then
          some ⟨pyRound2 (eff / total), "kr/kg"⟩
        else if u = "stk" ∨ u = "stk." ∨ u = "pk" ∨ u = "pak" ∨ u = "pakke" then
          some ⟨pyRound2 (eff / total), "kr/stk"⟩
        else none

/-- Base dimension of a unit string, for stating the invariance claim:
volume, weight or count, per the branches of `calculate_unit_price`. -/
inductive UKind | vol | wt | cnt
deriving DecidableEq

/-- Classifier of the unit strings `calculate_unit_price` recognizes
(after `.lower().strip()`), by base dimension. -/
def unitKindOf (u0 : String) : Option UKind :=
  let u := pyStrip (pyLower u0)
  if u = "ml" ∨ u = "milliliter" ∨ u = "cl" ∨ u = "dl" ∨ u = "l" ∨ u = "liter"
  then some .vol
  else if u = "g" ∨ u = "gram" ∨ u = "kg" ∨ u = "kilo" ∨ u = "kilogram"
  then some .wt
  else if u = "stk" ∨ u = "stk." ∨ u = "pk" ∨ u = "pak" ∨ u = "pakke"
  then some .cnt
  else none

/-- Conversion factor of a unit to its base unit (ml for volume, g for
weight, piece for count); 0 for unrecognized units. -/
def unitFactor (u0 : String) : ℚ :=
  let u := pyStrip (pyLower u0)
  if u = "ml" ∨ u = "milliliter" then 1
  else if u = "cl" then 10
  else if u = "dl" then 100
  else if u = "l" ∨ u = "liter" then 1000
  else if u = "g" ∨ u = "gram" then 1
  else if u = "kg" ∨ u = "kilo" ∨ u = "kilogram" then 1000
  else if u = "stk" ∨ u = "stk." ∨ u = "pk" ∨ u = "pak" ∨ u = "pakke" then 1
  else 0

/-- Canonical form of `calculate_unit_price` over the base-unit amount
`a = v * unitFactor u`, used to prove the invariance claim. -/
def canonCalc (price_value deposit_value : Option ℚ) (a : ℚ)
    (pack_count : Option ℤ) (k : UKind) : Option UPrice :=
  match price_value with
  | none => none
  | some p =>
    if p ≤ 0 then none else
    if a ≤ 0 then none else
    let eff := effectivePrice p deposit_value
    let packq := packFactor pack_count
    match k with
    | .vol => some ⟨pyRound2 (1000 * eff / (a * packq)), "kr/L"⟩
    | .wt => some ⟨pyRound2 (1000 * eff / (a * packq)), "kr/kg"⟩
    | .cnt => some ⟨pyRound2 (eff / (a * packq)), "kr/stk"⟩

end UnitPrice

namespace Netto

/-- One PyMuPDF span as `_extract_text_with_prices` reads it: raw text and
font size in points. -/
structure Span where
  text : String
  size : ℚ
deriving DecidableEq

/-- One PyMuPDF line: its spans and the left edge of its bbox. -/
structure PLLine where
  spans : List Span
  x : ℚ
deriving DecidableEq

/-- One entry of the `font_prices` list. -/
structure FontPrice where
  value : ℚ
  line_index : ℕ
  x : ℚ
deriving DecidableEq

/-- The loop state of `_extract_text_with_prices`.  The three Python
variables `current_price_kr`, `current_price_kr_pos` and
`current_price_kr_x` form one register: position and x are only ever read
while the kroner value is set, so the register is a single `Option`. -/
structure PLState where
  reg : Option (ℕ × ℕ × ℚ)
  prices : List FontPrice
  lineIndex : ℕ
  lines : List (String × ℚ)
deriving DecidableEq

/-- The dash suffixes recognized by the whole-kroner emission branch. -/
def isDashForm (t : String) : Bool :=
  t = ".-" || t = "-" || t = "." || t = ",-"

def isCtl (c : Char) : Bool :=
  c.toNat ≤ 0x1f || (0x7f ≤ c.toNat && c.toNat ≤ 0x9f)

/-- Collapse maximal whitespace runs to a single space
(`re.sub(r'\s+', ' ', ...)`). -/
def collapseWsAux : List Char → Bool → List Char
  | [], _ => []
  | c :: rest, prevWs =>
    if isWs c then
      if prevWs then collapseWsAux rest true
      else ' ' :: collapseWsAux rest true
    else c :: collapseWsAux rest false

/-- `ScannerV2._clean_text`: drop control characters, collapse whitespace,
strip. -/
def clean_text (s : String) : String :=
  pyStrip ⟨collapseWsAux (s.data.filter (fun c => !isCtl c)) false⟩

/-- The per-span body of `_extract_text_with_prices` (netto_scanner.py
lines 571-604): a large-font 1-3 digit span loads the kroner register
(never emitting); a dash suffix with a register set on the same line emits
the whole-kroner anchor; a 20-50 pt two-digit span with a register set on
the same line emits the kroner+øre anchor; everything else leaves the
state unchanged. -/
def spanStep (lineX : ℚ) (st : PLState) (sp : Span) : PLState :=
  let t := pyStrip sp.text
  if 50 ≤ sp.size ∧ pyIsDigit t = true ∧ t.length ≤ 3 then
    { st with reg := some (digitsToNat t.data, st.lineIndex, lineX) }
  else if st.reg.isSome ∧ isDashForm t = true then
    match st.reg with
    | some (kr, pos, x) =>
      if pos = st.lineIndex then
        { st with
            reg := none
            prices := st.prices ++ [⟨(kr : ℚ), st.lineIndex, x⟩] }
      else st
    | none => st
  else if 20 ≤ sp.size ∧ sp.size < 50 ∧ st.reg.isSome then
    match st.reg with
    | some (kr, pos, x) =>
      if pyIsDigit t = true ∧ t.length = 2 then
        if pos = st.lineIndex then
          { st with
              reg := none
              prices := st.prices ++ [⟨(kr : ℚ) + (digitsToNat t.data : ℚ) / 100, st.lineIndex, x⟩] }
        else st
      else st
    | none => st
  else st

/-- The per-line body of `_extract_text_with_prices`: process the spans,
then append the cleaned line text and advance the line index when the
cleaned text is non-empty.  (The `is_skip` flag computed in the source is
never read and is omitted.) -/
def lineStep (st : PLState) (ln : PLLine) : PLState :=
  let st1 := ln.spans.foldl (spanStep ln.x) st
  let lineText := clean_text (String.join (ln.spans.map (·.text)))
  if lineText ≠ "" then
    { st1 with
        lines := st1.lines ++ [(lineText, ln.x)]
        lineIndex := st1.lineIndex + 1 }
  else st1

/-- `ScannerV2._extract_text_with_prices`: returns `(lines, font_prices)`. -/
def extract_text_with_prices (lns : List PLLine) :
    List (String × ℚ) × List FontPrice :=
  let fin := lns.foldl lineStep ⟨none, [], 0, []⟩
  (fin.lines, fin.prices)

/-- A span that can close the kroner register into an emitted anchor: a
dash-suffix span, or a two-digit span at font size in [20, 50). -/
def closerSpan (sp : Span) : Bool :=
  isDashForm (pyStrip sp.text) ||
  (20 ≤ sp.size && sp.size < 50 && pyIsDigit (pyStrip sp.text) &&
   (pyStrip sp.text).length = 2)

end Netto

namespace Netto

/-- One entry of the `lines` list consumed by `_find_product_blocks`: the
cleaned text and the line's bbox left edge, in the extractor's own page
coordinates. -/
structure BLine where
  text : String
  x : ℚ
deriving DecidableEq

/-- One block produced by `_find_product_blocks`. -/
structure Block where
  start_idx : ℕ
  end_idx : ℕ
  blines : List BLine
  page : ℕ
  x : ℚ
deriving DecidableEq

/-- `is_same_column` of `_find_product_blocks` with its default tolerance:
the two x coordinates differ by less than 50 (in the same raw units the
lines carry). -/
def is_same_column (x1 x2 : ℚ) : Bool := decide (|x1 - x2| < 50)

/-- The loop of `_find_product_blocks` (netto_scanner.py lines 630-669).
`isSkip` stands for the `self._is_skip_line` method, which the loop calls
on each line text; `i` is the running index, `cur` the
`(current_block_start, current_block_x)` state, `acc` the emitted blocks.
After the loop the open block, if any, is closed at the last line. -/
def fpbGo (isSkip : String → Bool) (allLines : List BLine) (fpIdx : List ℕ)
    (lineToPage : List (ℕ × ℕ)) :
    ℕ → List BLine → Option (ℕ × ℚ) → List Block → List Block
  | _, [], cur, acc =>
    match cur with
    | some (s, cx) =>
      acc ++ [⟨s, allLines.length - 1, allLines.drop s,
        ((lineToPage.lookup s).getD 1), cx⟩]
    | none => acc
  | i, ln :: rest, cur, acc =>
    if ln.text = "" ∨ isSkip ln.text = true then
      fpbGo isSkip allLines fpIdx lineToPage (i + 1) rest cur acc
    else
      let startNew1 : Bool :=
        match cur with
        | none => true
        | some (_, cx) =>
          if i ∈ fpIdx then false else !(is_same_column ln.x cx)
      let startNew := startNew1 || (decide (0 < i) && decide ((i - 1) ∈ fpIdx))
      let acc2 :=
        if startNew then
          match cur with
          | some (s, cx) =>
            acc ++ [⟨s, i - 1, (allLines.drop s).take (i - s),
              ((lineToPage.lookup s).getD 1), cx⟩]
          | none => acc
        else acc
      let cur2 := if startNew then some (i, ln.x) else cur
      fpbGo isSkip allLines fpIdx lineToPage (i + 1) rest cur2 acc2

/-- `ScannerV2._find_product_blocks`.  The `font_price_lines` dict is used
only through membership of its keys, embedded as the list of anchor line
indices. -/
def find_product_blocks (isSkip : String → Bool) (lines : List BLine)
    (lineToPage : List (ℕ × ℕ)) (font_prices : List FontPrice) :
    List Block :=
  fpbGo isSkip lines (font_prices.map (·.line_index)) lineToPage 0 lines none []

end Netto

namespace SkuKey

/-- The character class kept by `normalize_text`'s filter
(`[^a-z0-9\\-\\s]` removed): lowercase ASCII letters, ASCII digits,
hyphen and whitespace. -/
def isAllowedChar (c : Char) : Bool :=
  ('a' ≤ c && c ≤ 'z') || ('0' ≤ c && c ≤ '9') || c = '-' || isWs c

/-- The Danish-letter replacements of `normalize_text`, applied to the
already lowercased text (the uppercase entries of the replacement dict are
kept for faithfulness; they cannot fire after lowering). -/
def replaceDanish (l : List Char) : List Char :=
  l.flatMap (fun c =>
    if c = 'æ' then ['a', 'e']
    else if c = 'ø' then ['o', 'e']
    else if c = 'å' then ['a', 'a']
    else if c = 'Æ' then ['a', 'e']
    else if c = 'Ø' then ['o', 'e']
    else if c = 'Å' then ['a', 'a']
    else [c])

/-- `re.sub(r'\\s+', '-', ...)`: each maximal whitespace run becomes one
hyphen. -/
def wsToHyphenAux : List Char → Bool → List Char
  | [], _ => []
  | c :: rest, prevWs =>
    if isWs c then
      if prevWs then wsToHyphenAux rest true
      else '-' :: wsToHyphenAux rest true
    else c :: wsToHyphenAux rest false

/-- `re.sub(r'-+', '-', ...)`: each maximal hyphen run becomes one
hyphen. -/
def collapseHyphensAux : List Char → Bool → List Char
  | [], _ => []
  | c :: rest, prevHy =>
    if c = '-' then
      if prevHy then collapseHyphensAux rest true
      else '-' :: collapseHyphensAux rest true
    else c :: collapseHyphensAux rest false

/-- `str.strip('-')`. -/
def trimHyphens (l : List Char) : List Char :=
  ((l.dropWhile (· = '-')).reverse.dropWhile (· = '-')).reverse

/-- `normalize_text` of services/sku_key.py: lowercase and strip, replace
Danish letters, drop disallowed characters, whitespace runs to hyphen,
collapse hyphen runs, trim hyphens; empty results become `None`. -/
def normalize_text : Option String → Option String
  | none => none
  | some s =>
    if s = "" then none
    else
      let r1 := replaceDanish (stripList (pyLower s).data)
      let r2 := r1.filter isAllowedChar
      let r3 := wsToHyphenAux r2 false
      let r4 := collapseHyphensAux r3 false
      let r5 := trimHyphens r4
      if r5 = [] then none else some ⟨r5⟩

def digitChar (n : ℕ) : Char :=
  match n with
  | 0 => '0' | 1 => '1' | 2 => '2' | 3 => '3' | 4 => '4'
  | 5 => '5' | 6 => '6' | 7 => '7' | 8 => '8' | _ => '9'

/-- Decimal digits of `n`, least significant first, with explicit fuel
(enough fuel is supplied by `natToString`). -/
def natToRevDigits : ℕ → ℕ → List Char
  | 0, _ => []
  | fuel + 1, n =>
    if n < 10 then [digitChar n]
    else digitChar (n % 10) :: natToRevDigits fuel (n / 10)

/-- Python `str(n)` for a natural number. -/
def natToString (n : ℕ) : String := ⟨(natToRevDigits (n + 1) n).reverse⟩

/-- Python `str(z)` for an integer. -/
def intToString (z : ℤ) : String :=
  if z < 0 then "-" ++ natToString z.natAbs else natToString z.natAbs

/-- `format_amount` of services/sku_key.py: lower/strip the unit, convert
l/liter/dl/cl to ml and kg/kilo/kilogram to g, round, and render
`str(int(value)) + unit`; missing value or unit renders "null". -/
def format_amount (value : Option ℚ) (unit : Option String) : String :=
  match value, unit with
  | some v, some u =>
    let nu := pyStrip (pyLower u)
    let conv : ℚ × String :=
      if nu = "l" ∨ nu = "liter" then (v * 1000, "ml")
      else if nu = "dl" then (v * 100, "ml")
      else if nu = "cl" then (v * 10, "ml")
      else if nu = "kg" ∨ nu = "kilo" ∨ nu = "kilogram" then (v * 1000, "g")
      else (v, nu)
    intToString (pyRoundInt conv.1) ++ conv.2
  | _, _ => "null"

/-- `"|".join` over the five parts, at the character level. -/
def joinPipeCh : List (List Char) → List Char
  | [] => []
  | [p] => p
  | p :: q :: rest => p ++ '|' :: joinPipeCh (q :: rest)

/-- `generate_sku_key` of services/sku_key.py.  The outer `Option` models
exceptions: `none` is the `TypeError` raised by `"|".join` when
`normalize_text(product_norm)` is `None`; `some none` is the documented
`return None` for a missing/blank product; `some (some k)` is the key. -/
def generate_sku_key (brand_norm product_norm variant_norm container_type :
    Option String) (net_amount_value : Option ℚ)
    (net_amount_unit : Option String) : Option (Option String) :=
  match product_norm with
  | none => some none
  | some p =>
    if stripList p.data = [] then some none
    else
      match normalize_text (some p) with
      | none => none
      | some np =>
        some (some ⟨joinPipeCh
          [((normalize_text brand_norm).getD "null").data,
           np.data,
           ((normalize_text variant_norm).getD "null").data,
           ((normalize_text container_type).getD "null").data,
           (format_amount net_amount_value net_amount_unit).data]⟩)

/-- `sku_key.split("|")` at the character level. -/
def splitOnPipe : List Char → List (List Char)
  | [] => [[]]
  | c :: rest =>
    match splitOnPipe rest with
    | [] => [[c]]
    | h :: t => if c = '|' then [] :: h :: t else (c :: h) :: t

/-- The dict returned by `parse_sku_key`, as a record; an empty dict
(wrong number of parts) is `none` at the call site. -/
structure ParsedSku where
  brand : Option String
  product : Option String
  variant : Option String
  container : Option String
  amount : Option String
  amount_value : Option ℕ
  amount_unit : Option String
deriving DecidableEq

/-- Python regex `\\w` restricted to ASCII (the only characters SKU keys
contain). -/
def isWordChar (c : Char) : Bool :=
  ('a' ≤ c && c ≤ 'z') || ('A' ≤ c && c ≤ 'Z') || ('0' ≤ c && c ≤ '9') || c = '_'

/-- `re.match(r'(\\d+)(\\w+)', s)`: maximal leading digits, then at least
one word character (the rest of the string is ignored, `match` is not
anchored at the end).  When no word character follows the digits the
regex engine backtracks one digit so that `\\w+` can match it. -/
def matchAmount (l : List Char) : Option (ℕ × List Char) :=
  let ds := l.takeWhile isDigitChar
  let rest := l.dropWhile isDigitChar
  if ds = [] then none
  else
    match rest.takeWhile isWordChar with
    | [] =>
      if 2 ≤ ds.length then some (digitsToNat ds.dropLast, [ds.getLast!])
      else none
    | w => some (digitsToNat ds, w)

/-- `parts[i] if parts[i] != "null" else None`. -/
def nullToOption (p : List Char) : Option String :=
  if p = "null".data then none else some ⟨p⟩

/-- `parse_sku_key` of services/sku_key.py. -/
def parse_sku_key (sku : String) : Option ParsedSku :=
  match splitOnPipe sku.data with
  | [p0, p1, p2, p3, p4] =>
    let amount := nullToOption p4
    let av_au : Option ℕ × Option String :=
      match amount with
      | some a =>
        if a ≠ "" then
          match matchAmount a.data with
          | some (v, w) => (some v, some ⟨w⟩)
          | none => (none, none)
        else (none, none)
      | none => (none, none)
    some ⟨nullToOption p0, nullToOption p1, nullToOption p2, nullToOption p3,
      amount, av_au.1, av_au.2⟩
  | _ => none

/-- ASCII letters and digits, for stating C10's precondition. -/
def isAsciiAlnum (c : Char) : Bool :=
  (65 ≤ c.toNat && c.toNat ≤ 90) || (97 ≤ c.toNat && c.toNat ≤ 122) ||
  (48 ≤ c.toNat && c.toNat ≤ 57)

/-- Lowercase ASCII letters and digits. -/
def isLowerAlnum (c : Char) : Bool :=
  (97 ≤ c.toNat && c.toNat ≤ 122) || (48 ≤ c.toNat && c.toNat ≤ 57)

end SkuKey

/-- Concrete input for the C9 witness: a 500 g amount. -/
def c9WitnessInput : Confidence.ConfidenceInput :=
  { has_amount := true, net_amount_value := some 500,
    net_amount_unit := some "g" }

/-- Input for the C6 witness: one line holding a body-text span and a lone
64 pt kroner span "15", with no dash or øre span anywhere. -/
def c6WitnessLines : List Netto.PLLine :=
  [⟨[⟨"MÆLK øko", 14⟩, ⟨"15", 64⟩], 1/10⟩]

namespace SkuKey

/-- Characters of a normalized text: lowercase alphanumeric or hyphen. -/
def isOutChar (c : Char) : Bool := isLowerAlnum c || c = '-'

end SkuKey

namespace SkuKey

/-- Base-unit name used by `format_amount`'s conversion table. -/
def amountBaseUnit (u : String) : String :=
  if u = "l" ∨ u = "liter" ∨ u = "dl" ∨ u = "cl" then "ml"
  else if u = "kg" ∨ u = "kilo" ∨ u = "kilogram" then "g"
  else u

end SkuKey

namespace SkuKey

/-- Multiplier to the base unit used by `format_amount`. -/
def amountFactor (u : String) : ℚ :=
  if u = "l" ∨ u = "liter" then 1000
  else if u = "dl" then 100
  else if u = "cl" then 10
  else if u = "kg" ∨ u = "kilo" ∨ u = "kilogram" then 1000
  else 1

end SkuKey

/-! ## Theorems -/

/-- C1.  The claim states that every input containing one of the exclusive
pass-1 keywords (among them "rema 1000" and "eurospar") detects at a
confidence in [0.95, 0.98].  The `retailers` dict literal, however, binds
the keys "rema" and "spar" twice; Python keeps the last value, so the
pass-1 entries (["rema 1000", "rema1000"] at 0.98 and ["eurospar"] at
0.98) are overwritten by the fallback entries (["rema"] at 0.90 and
["spar "] at 0.90), contradicting the comments in the source.  An input
containing "rema 1000" hence detects as "rema" at confidence 0.90 < 0.95,
and the bare input "eurospar" detects nothing at all. -/
theorem c1_retailer_code_bug :
    DocIntel.detect_retailer "rema 1000" = (some "rema", 90/100) ∧
    DocIntel.detect_retailer "eurospar" = (none, 0) ∧
    ((90 : ℚ)/100 < 95/100) := by
  refine ⟨by rfl, by rfl, by norm_num⟩

/-- C2.  Same product at the same price on page 3 and later on page 7: the
second offer is flagged `is_duplicate`, but its `first_seen_page` is 7 —
the duplicate's own page — not 3.  `_check_duplicate` returns the stored
first page, yet `_block_to_offer` immediately overwrites
`dup_info["first_seen_page"]` with the current block page, so the
back-pointer promised by the spec (and computed by `_check_duplicate`) is
lost.  Both offers are still emitted (`applyDupInfo` yields an offer
annotation in both branches). -/
theorem c2_duplicate_code_bug :
    (let s1 := Netto.applyDupInfo [] "Mælk" (some 29) 3
     let s2 := Netto.applyDupInfo s1.2 "Mælk" (some 29) 7
     (s2.1.is_duplicate, s2.1.first_seen_page)) = (true, some 7) := by rfl

/-- C9 counterexample.  A present amount with value 0 — a non-positive
value, which the claim says scores 0.3 — scores 0.5: Python's truthiness
test `input.net_amount_value` treats 0 as missing, so the `<= 0` branch is
unreachable for 0. -/
theorem c9_amount_counterexample :
    (Confidence.calculate_confidence
      { has_amount := true, net_amount_value := some 0,
        net_amount_unit := some "g" }).amount_detail = 1/2 ∧
    ¬ (Confidence.calculate_confidence
      { has_amount := true, net_amount_value := some 0,
        net_amount_unit := some "g" }).amount_detail = 3/10 := by
  refine ⟨by rfl, by intro h; rw [show (Confidence.calculate_confidence
      { has_amount := true, net_amount_value := some 0,
        net_amount_unit := some "g" }).amount_detail = 1/2 from rfl] at h; norm_num at h⟩

/-- C9 amended.  Characterization of the amount factor as the code computes
it: 1.0 for a present amount with positive value and known unit, 0.7 for a
present amount with positive value and an unknown (non-empty) unit, 0.3
for a present amount with a strictly negative value; an amount whose value
is 0 or whose unit is the empty string is treated as missing by Python
truthiness and scores 0.5, as does an absent amount. -/
theorem c9_amount_factor (i : Confidence.ConfidenceInput) :
    (∀ x u, i.has_amount = true → i.net_amount_value = some x →
      i.net_amount_unit = some u → u ≠ "" →
      ((0 < x → pyLower u ∈ Confidence.knownAmountUnits →
          (Confidence.calculate_confidence i).amount_detail = 1) ∧
       (0 < x → pyLower u ∉ Confidence.knownAmountUnits →
          (Confidence.calculate_confidence i).amount_detail = 7/10) ∧
       (x < 0 → (Confidence.calculate_confidence i).amount_detail = 3/10))) ∧
    ((i.has_amount = false ∨ i.net_amount_value = none ∨
      i.net_amount_value = some 0 ∨ i.net_amount_unit = none ∨
      i.net_amount_unit = some "") →
      (Confidence.calculate_confidence i).amount_detail = 1/2) := by
  constructor
  · intro x u ha hv hu hne
    simp only [Confidence.calculate_confidence, Confidence.qTruthy,
      Confidence.sTruthy, ha, hv, hu]
    refine ⟨fun hx hk => ?_, fun hx hk => ?_, fun hx => ?_⟩
    · have hx0 : x ≠ 0 := by linarith
      simp [hx0, hne, hk, not_le.mpr hx]
    · have hx0 : x ≠ 0 := by linarith
      simp [hx0, hne, hk, not_le.mpr hx]
    · have hx0 : x ≠ 0 := by linarith
      simp [hx0, hne, le_of_lt hx]
  · intro h
    rcases h with h | h | h | h | h <;>
      simp [Confidence.calculate_confidence, Confidence.qTruthy,
        Confidence.sTruthy, h]

/-- Witness for C9: a present 500 g amount scores 1.0. -/
theorem c9_amount_factor_witness :
    ((0 : ℚ) < 500 ∧ pyLower "g" ∈ Confidence.knownAmountUnits) ∧
    (Confidence.calculate_confidence c9WitnessInput).amount_detail = 1 := by
  refine ⟨⟨by norm_num, by decide⟩, ?_⟩
  exact ((c9_amount_factor c9WitnessInput).1 500 "g" rfl rfl rfl
    (by decide)).1 (by norm_num) (by decide)

/-- C5.  For every year and week number NN ≥ 1, the netto scanner's week
computation (branching on January 1's weekday to find a first Monday) and
the document-intelligence week computation (Monday of the week containing
January 4) return the same Monday-to-Sunday rata-die range, and that range
starts at m + 7(NN−1) where m is the Monday of the week containing
January 4 — ISO week NN under the "week 1 contains Jan 4" rule. -/
theorem c5_week_computations_agree (year week : ℤ) (hw : 1 ≤ week) :
    Netto.extract_validity_week year week =
      DocIntel.detect_validity_week year week ∧
    (∃ m : ℤ, Dates.pyWeekday m = 0 ∧ m ≤ Dates.jan1RD year + 3 ∧
      Dates.jan1RD year + 3 < m + 7 ∧
      DocIntel.detect_validity_week year week =
        (m + 7 * (week - 1), m + 7 * (week - 1) + 6) ∧
      Dates.pyWeekday (m + 7 * (week - 1)) = 0) := by
  simp only [Netto.extract_validity_week, DocIntel.detect_validity_week,
    Dates.pyWeekday, Prod.mk.injEq]
  constructor
  · split_ifs <;> constructor <;> omega
  · refine ⟨Dates.jan1RD year + 3 - (Dates.jan1RD year + 3 - 1) % 7,
      ?_, ?_, ?_, ⟨?_, ?_⟩, ?_⟩ <;> omega

/-- Witness for C5 at year 2025, week 7. -/
theorem c5_week_computations_agree_witness :
    (1 : ℤ) ≤ 7 ∧
    (Netto.extract_validity_week 2025 7 =
      DocIntel.detect_validity_week 2025 7 ∧
    (∃ m : ℤ, Dates.pyWeekday m = 0 ∧ m ≤ Dates.jan1RD 2025 + 3 ∧
      Dates.jan1RD 2025 + 3 < m + 7 ∧
      DocIntel.detect_validity_week 2025 7 =
        (m + 7 * (7 - 1), m + 7 * (7 - 1) + 6) ∧
      Dates.pyWeekday (m + 7 * (7 - 1)) = 0)) :=
  ⟨by norm_num, c5_week_computations_agree 2025 7 (by norm_num)⟩

/-- C4 counterexample.  For the captured numbers 28/12 – 3/12 (28 December
to 3 December, an end date earlier than the start in the same month), the
netto path leaves the end date in the current year — the claim requires it
rolled into the next year — while the document-intelligence path rolls it.
The netto path compares months only (`if m1 > m2`). -/
theorem c4_validity_counterexample :
    Netto.extract_validity_numeric 28 12 3 12 2025 =
      (⟨2025, 12, 28⟩, ⟨2025, 12, 3⟩) ∧
    ((3 : ℕ) < 28) ∧
    DocIntel.detect_validity_numeric 28 12 3 12 2025 =
      some (⟨2025, 12, 28⟩, ⟨2026, 12, 3⟩) := by
  refine ⟨by rfl, by norm_num, by rfl⟩

/-- C4 amended.  Both paths form both dates in the current calendar year,
but they roll the end year differently: the netto scanner rolls exactly
when the end month is smaller than the start month (a same-month inverted
range stays in the current year), while the document-intelligence path
rolls exactly when the full end date is earlier than the start date
(and drops the match when the rolled date is invalid, i.e. February 29). -/
theorem c4_validity_year_roll (d1 m1 d2 m2 : ℕ) (year : ℤ) :
    ((Netto.extract_validity_numeric d1 m1 d2 m2 year).1 = ⟨year, m1, d1⟩ ∧
     (Netto.extract_validity_numeric d1 m1 d2 m2 year).2.month = m2 ∧
     (Netto.extract_validity_numeric d1 m1 d2 m2 year).2.day = d2 ∧
     ((Netto.extract_validity_numeric d1 m1 d2 m2 year).2.year = year + 1 ↔
        m2 < m1)) ∧
    (∀ r1 r2, DocIntel.detect_validity_numeric d1 m1 d2 m2 year =
        some (r1, r2) →
      r1 = ⟨year, m1, d1⟩ ∧ r2.month = m2 ∧ r2.day = d2 ∧
      (r2.year = year + 1 ↔ (m2 < m1 ∨ (m2 = m1 ∧ d2 < d1)))) := by
  constructor
  · unfold Netto.extract_validity_numeric
    split_ifs with h <;> simp <;> omega
  · intro r1 r2 hr
    unfold DocIntel.detect_validity_numeric at hr
    split_ifs at hr with h1 h2 h3
    · have h := Option.some.inj hr
      have e1 : r1 = ⟨year, m1, d1⟩ := (congrArg Prod.fst h).symm
      have e2 : r2 = ⟨year + 1, m2, d2⟩ := (congrArg Prod.snd h).symm
      subst e1; subst e2
      refine ⟨rfl, rfl, rfl, ?_⟩
      show year + 1 = year + 1 ↔ _
      omega
    · have h := Option.some.inj hr
      have e1 : r1 = ⟨year, m1, d1⟩ := (congrArg Prod.fst h).symm
      have e2 : r2 = ⟨year, m2, d2⟩ := (congrArg Prod.snd h).symm
      subst e1; subst e2
      refine ⟨rfl, rfl, rfl, ?_⟩
      show year = year + 1 ↔ _
      omega

/-- Witness for C4 at the captured numbers 28/12 – 3/12, year 2025. -/
theorem c4_validity_year_roll_witness :
    DocIntel.detect_validity_numeric 28 12 3 12 2025 =
      some (⟨2025, 12, 28⟩, ⟨2026, 12, 3⟩) ∧
    ((⟨2025, 12, 28⟩ : Dates.Ymd) = ⟨2025, 12, 28⟩ ∧
     (⟨2026, 12, 3⟩ : Dates.Ymd).month = 12 ∧
     (⟨2026, 12, 3⟩ : Dates.Ymd).day = 3 ∧
     ((⟨2026, 12, 3⟩ : Dates.Ymd).year = 2025 + 1 ↔
        (12 < 12 ∨ (12 = 12 ∧ 3 < 28)))) :=
  ⟨by rfl, (c4_validity_year_roll 28 12 3 12 2025).2 ⟨2025, 12, 28⟩
    ⟨2026, 12, 3⟩ (by rfl)⟩

/-- Multiplying by a positive factor preserves non-positivity (the amount
guard is invariant under unit conversion). -/
theorem unit_price_fac_le (v f : ℚ) (hf : 0 < f) : v * f ≤ 0 ↔ v ≤ 0 := by
  constructor <;> intro h <;> nlinarith

/-- `calculate_unit_price` depends on the amount only through its base-unit
value `v * unitFactor u` and the base dimension of `u`. -/
theorem calc_unit_price_canon (p d : Option ℚ) (n : Option ℤ) (v : ℚ)
    (u : String) (k : UnitPrice.UKind)
    (hk : UnitPrice.unitKindOf u = some k) :
    UnitPrice.calculate_unit_price p d (some v) (some u) n =
      UnitPrice.canonCalc p d (v * UnitPrice.unitFactor u) n k := by
  have h0 : u ≠ "" := by
    intro h
    subst h
    simp [UnitPrice.unitKindOf, pyStrip, pyLower, stripList] at hk
  cases p with
  | none => rfl
  | some pv =>
    simp only [UnitPrice.unitKindOf] at hk
    split_ifs at hk with hv hw hc
    · have hkk : k = UnitPrice.UKind.vol := (Option.some.inj hk).symm
      subst hkk
      rcases hv with hs | hs | hs | hs | hs | hs <;>
      · have hf : (0:ℚ) < UnitPrice.unitFactor u := by
          simp [UnitPrice.unitFactor, hs]
        simp only [UnitPrice.calculate_unit_price, UnitPrice.canonCalc,
          unit_price_fac_le v _ hf]
        by_cases hp : pv ≤ 0
        · simp [hp]
        · by_cases hv0 : v ≤ 0
          · simp [hp, hv0, hs, h0]
          · simp [hp, hv0, hs, h0, UnitPrice.unitFactor,
              UnitPrice.UPrice.mk.injEq]
            all_goals congr 1
            all_goals ring
    · have hkk : k = UnitPrice.UKind.wt := (Option.some.inj hk).symm
      subst hkk
      rcases hw with hs | hs | hs | hs | hs <;>
      · have hf : (0:ℚ) < UnitPrice.unitFactor u := by
          simp [UnitPrice.unitFactor, hs]
        simp only [UnitPrice.calculate_unit_price, UnitPrice.canonCalc,
          unit_price_fac_le v _ hf]
        by_cases hp : pv ≤ 0
        · simp [hp]
        · by_cases hv0 : v ≤ 0
          · simp [hp, hv0, hs, h0]
          · simp [hp, hv0, hs, h0, UnitPrice.unitFactor,
              UnitPrice.UPrice.mk.injEq]
            all_goals congr 1
            all_goals ring
    · have hkk : k = UnitPrice.UKind.cnt := (Option.some.inj hk).symm
      subst hkk
      rcases hc with hs | hs | hs | hs | hs <;>
      · have hf : (0:ℚ) < UnitPrice.unitFactor u := by
          simp [UnitPrice.unitFactor, hs]
        simp only [UnitPrice.calculate_unit_price, UnitPrice.canonCalc,
          unit_price_fac_le v _ hf]
        by_cases hp : pv ≤ 0
        · simp [hp]
        · by_cases hv0 : v ≤ 0
          · simp [hp, hv0, hs, h0]
          · simp [hp, hv0, hs, h0, UnitPrice.unitFactor,
              UnitPrice.UPrice.mk.injEq]

/-- C7.  The unit-price calculation is invariant under re-expression of the
amount in any unit sharing the same base: for every price, deposit and
pack count, two amounts with the same base dimension and the same
base-unit value (e.g. 500 g and 0.5 kg, or 330 ml and 33 cl) yield
identical `unit_price_value` and `unit_price_unit` after rounding. -/
theorem c7_unit_price_invariance (p d : Option ℚ) (n : Option ℤ) (v w : ℚ)
    (u1 u2 : String) (k : UnitPrice.UKind)
    (hk1 : UnitPrice.unitKindOf u1 = some k)
    (hk2 : UnitPrice.unitKindOf u2 = some k)
    (hamt : v * UnitPrice.unitFactor u1 = w * UnitPrice.unitFactor u2) :
    UnitPrice.calculate_unit_price p d (some v) (some u1) n =
      UnitPrice.calculate_unit_price p d (some w) (some u2) n := by
  rw [calc_unit_price_canon p d n v u1 k hk1,
    calc_unit_price_canon p d n w u2 k hk2, hamt]

/-- Witness for C7: 500 g at 20 kr equals 0.5 kg at 20 kr. -/
theorem c7_unit_price_invariance_witness :
    (UnitPrice.unitKindOf "g" = some UnitPrice.UKind.wt ∧
     UnitPrice.unitKindOf "kg" = some UnitPrice.UKind.wt ∧
     (500 : ℚ) * UnitPrice.unitFactor "g" =
       (1/2 : ℚ) * UnitPrice.unitFactor "kg") ∧
    UnitPrice.calculate_unit_price (some 20) none (some 500) (some "g") none =
      UnitPrice.calculate_unit_price (some 20) none (some (1/2)) (some "kg")
        none :=
  ⟨⟨by rfl, by rfl, by
      have h1 : UnitPrice.unitFactor "g" = 1 := by rfl
      have h2 : UnitPrice.unitFactor "kg" = 1000 := by rfl
      rw [h1, h2]; norm_num⟩,
   c7_unit_price_invariance (some 20) none none 500 (1/2) "g" "kg"
     UnitPrice.UKind.wt (by rfl) (by rfl) (by
      have h1 : UnitPrice.unitFactor "g" = 1 := by rfl
      have h2 : UnitPrice.unitFactor "kg" = 1000 := by rfl
      rw [h1, h2]; norm_num)⟩

namespace Netto

lemma spanStep_not_closer (lineX : ℚ) (st : PLState) (sp : Span)
    (h : closerSpan sp = false) :
    (spanStep lineX st sp).prices = st.prices := by
  have hd : isDashForm (pyStrip sp.text) = false := by
    revert h; unfold closerSpan
    cases isDashForm (pyStrip sp.text) <;> simp
  simp only [spanStep]
  split_ifs with h1 h2 h3 h4
  · rfl
  · rw [hd] at h2
    exact absurd h2.2 (by simp)
  · exfalso
    revert h
    unfold closerSpan
    simp [hd, h3.1, h3.2.1, h4.1, h4.2]
  · cases h' : st.reg <;> simp [h']
  · rfl

lemma foldl_spanStep_not_closer (l : List Span) (lineX : ℚ) (st : PLState)
    (h : ∀ sp ∈ l, closerSpan sp = false) :
    (l.foldl (spanStep lineX) st).prices = st.prices := by
  induction l generalizing st with
  | nil => rfl
  | cons a l ih =>
    rw [List.foldl_cons, ih _ (fun sp hsp => h sp (List.mem_cons_of_mem a hsp)),
      spanStep_not_closer lineX st a (h a (List.mem_cons_self a l))]

lemma lineStep_not_closer (st : PLState) (ln : PLLine)
    (h : ∀ sp ∈ ln.spans, closerSpan sp = false) :
    (lineStep st ln).prices = st.prices := by
  simp only [lineStep]
  split_ifs <;> simp [foldl_spanStep_not_closer ln.spans ln.x st h]

lemma foldl_lineStep_not_closer (lns : List PLLine) (st : PLState)
    (h : ∀ ln ∈ lns, ∀ sp ∈ ln.spans, closerSpan sp = false) :
    (lns.foldl lineStep st).prices = st.prices := by
  induction lns generalizing st with
  | nil => rfl
  | cons a l ih =>
    rw [List.foldl_cons, ih _ (fun ln hln => h ln (List.mem_cons_of_mem a hln)),
      lineStep_not_closer st a (h a (List.mem_cons_self a l))]

/-- C6.  The Netto price locator never turns a lone large-font kroner span
into a PriceAnchor: (i) a kroner-setting span (font ≥ 50 pt, 1-3 digit
text) only loads the register — overwriting any previous kroner — and
emits nothing; (ii) whenever a step emits an anchor, the register was set
on the current line index and the span is a dash-suffix span or a
two-digit span at font size in [20, 50), and the register is cleared;
(iii) a run whose spans contain no such closing span emits no anchors at
all — in particular a register still non-empty at the end of processing
is discarded. -/
theorem c6_price_locator_register :
    (∀ (lineX : ℚ) (st : PLState) (sp : Span),
        50 ≤ sp.size → pyIsDigit (pyStrip sp.text) = true →
        (pyStrip sp.text).length ≤ 3 →
        (spanStep lineX st sp).prices = st.prices ∧
        (spanStep lineX st sp).reg =
          some (digitsToNat (pyStrip sp.text).data, st.lineIndex, lineX)) ∧
    (∀ (lineX : ℚ) (st : PLState) (sp : Span),
        (spanStep lineX st sp).prices ≠ st.prices →
        ∃ kr x v, st.reg = some (kr, st.lineIndex, x) ∧
          closerSpan sp = true ∧
          (spanStep lineX st sp).reg = none ∧
          (spanStep lineX st sp).prices =
            st.prices ++ [⟨v, st.lineIndex, x⟩]) ∧
    (∀ lns : List PLLine,
        (∀ ln ∈ lns, ∀ sp ∈ ln.spans, closerSpan sp = false) →
        (extract_text_with_prices lns).2 = []) := by
  refine ⟨?_, ?_, ?_⟩
  · intro lineX st sp h1 h2 h3
    constructor <;> simp [spanStep, h1, h2, h3]
  · intro lineX st sp hne
    by_cases hcl : closerSpan sp = true
    · by_cases h1 : 50 ≤ sp.size ∧ pyIsDigit (pyStrip sp.text) = true ∧
          (pyStrip sp.text).length ≤ 3
      · exact absurd (by simp [spanStep, h1] : (spanStep lineX st sp).prices = st.prices) hne
      · rcases hreg : st.reg with _ | ⟨kr, pos, x⟩
        · exact absurd (by simp [spanStep, h1, hreg]) hne
        · by_cases h2 : isDashForm (pyStrip sp.text) = true
          · by_cases hpos : pos = st.lineIndex
            · subst hpos
              refine ⟨kr, x, kr, rfl, hcl, ?_, ?_⟩ <;>
                simp [spanStep, h1, hreg, h2]
            · exact absurd (by simp [spanStep, h1, hreg, h2, hpos]) hne
          · by_cases h3 : 20 ≤ sp.size ∧ sp.size < 50
            · by_cases h4 : pyIsDigit (pyStrip sp.text) = true ∧
                  (pyStrip sp.text).length = 2
              · by_cases hpos : pos = st.lineIndex
                · subst hpos
                  refine ⟨kr, x, kr + (digitsToNat (pyStrip sp.text).data : ℚ) / 100,
                    rfl, hcl, ?_, ?_⟩ <;>
                    simp [spanStep, h1, hreg, h2, h3.1, h3.2, h4, not_le.mpr h3.2]
                · exact absurd (by
                    simp [spanStep, h1, hreg, h2, h3.1, h3.2, h4, hpos,
                      not_le.mpr h3.2]) hne
              · exact absurd (by
                  simp [spanStep, h1, hreg, h2, h3.1, h3.2, h4]) hne
            · exact absurd (by simp [spanStep, h1, hreg, h2, h3]) hne
    · exact absurd (spanStep_not_closer lineX st sp (by simpa using hcl)) hne
  · intro lns h
    unfold extract_text_with_prices
    exact foldl_lineStep_not_closer lns _ h

end Netto

/-- Witness for C6: the lone kroner span emits no price anchor. -/
theorem c6_price_locator_register_witness :
    (∀ ln ∈ c6WitnessLines, ∀ sp ∈ ln.spans, Netto.closerSpan sp = false) ∧
    (Netto.extract_text_with_prices c6WitnessLines).2 = [] :=
  ⟨by decide, Netto.c6_price_locator_register.2.2 c6WitnessLines (by decide)⟩

/-- C3 counterexample.  Two consecutive non-skip lines at x = 0.12 and
x = 0.55 with no price anchor do NOT produce two blocks: the clusterer's
tolerance of 50 is measured in the extractor's raw page coordinates (the
line bbox values PyMuPDF returns, in points), not in normalized [0, 1]
units, and |0.55 − 0.12| = 0.43 < 50, so both lines land in one block.
The skip predicate is instantiated with the constant-false function, which
agrees with `_is_skip_line` on the two texts used (neither "Mælk" nor
"Ost" matches any SKIP_PATTERNS entry), the only inputs the run queries. -/
theorem c3_column_counterexample :
    (Netto.find_product_blocks (fun _ => false)
      [⟨"Mælk", 12/100⟩, ⟨"Ost", 55/100⟩] [] []).length = 1 ∧
    (Netto.find_product_blocks (fun _ => false)
      [⟨"Mælk", 12/100⟩, ⟨"Ost", 55/100⟩] [] []).length ≠ 2 := by
  have habs : |(43:ℚ)/100| < 50 := by
    rw [abs_of_nonneg (by norm_num)]
    norm_num
  have hnear : |(55:ℚ)/100 - 12/100| < 50 := by
    rw [show (55:ℚ)/100 - 12/100 = 43/100 by norm_num]
    exact habs
  have h : (Netto.find_product_blocks (fun _ => false)
      [⟨"Mælk", 12/100⟩, ⟨"Ost", 55/100⟩] [] []).length = 1 := by
    simp [Netto.find_product_blocks, Netto.fpbGo, Netto.is_same_column,
      hnear, habs]
  exact ⟨h, by rw [h]; norm_num⟩

/-- C3 amended.  For two consecutive non-skip, non-empty lines with no
price anchors, the clusterer closes the block at the earlier line and
starts a new one at the later line exactly when their x coordinates differ
by at least 50 in the extractor's raw page units (the comparison is made
against the current block's starting x, which here is the earlier line);
when the difference is below 50, both lines form a single block. -/
theorem c3_column_threshold (isSkip : String → Bool) (t1 t2 : String)
    (x1 x2 : ℚ) (ltp : List (ℕ × ℕ))
    (h1 : isSkip t1 = false) (h2 : isSkip t2 = false)
    (hne1 : t1 ≠ "") (hne2 : t2 ≠ "") :
    (50 ≤ |x2 - x1| →
      Netto.find_product_blocks isSkip [⟨t1, x1⟩, ⟨t2, x2⟩] ltp [] =
        [⟨0, 0, [⟨t1, x1⟩], (ltp.lookup 0).getD 1, x1⟩,
         ⟨1, 1, [⟨t2, x2⟩], (ltp.lookup 1).getD 1, x2⟩]) ∧
    (|x2 - x1| < 50 →
      Netto.find_product_blocks isSkip [⟨t1, x1⟩, ⟨t2, x2⟩] ltp [] =
        [⟨0, 1, [⟨t1, x1⟩, ⟨t2, x2⟩], (ltp.lookup 0).getD 1, x1⟩]) := by
  constructor
  · intro hfar
    have hfar2 : (50:ℚ) ≤ |x1 - x2| := by rwa [abs_sub_comm]
    simp [Netto.find_product_blocks, Netto.fpbGo, hne1, hne2, h1, h2,
      Netto.is_same_column, hfar, hfar2, not_lt.mpr hfar, not_lt.mpr hfar2]
  · intro hnear
    have hnear2 : |x1 - x2| < 50 := by rwa [abs_sub_comm]
    simp [Netto.find_product_blocks, Netto.fpbGo, hne1, hne2, h1, h2,
      Netto.is_same_column, hnear, hnear2, not_le.mpr hnear,
      not_le.mpr hnear2]

/-- Witness for C3: lines at x = 100 and x = 200 split into two blocks. -/
theorem c3_column_threshold_witness :
    ((50:ℚ) ≤ |(200:ℚ) - 100|) ∧
    Netto.find_product_blocks (fun _ => false)
      [⟨"Mælk", 100⟩, ⟨"Ost", 200⟩] [] [] =
      [⟨0, 0, [⟨"Mælk", 100⟩], 1, 100⟩, ⟨1, 1, [⟨"Ost", 200⟩], 1, 200⟩] := by
  have habs : |(200:ℚ) - 100| = 100 := by
    rw [abs_of_nonneg (by norm_num)]
    norm_num
  refine ⟨by rw [habs]; norm_num, ?_⟩
  have h := (c3_column_threshold (fun _ => false) "Mælk" "Ost" 100 200 []
    rfl rfl (by decide) (by decide)).1 (by rw [habs]; norm_num)
  simpa using h

namespace SkuKey

lemma mem_dropWhile_of_mem {p : Char → Bool} {c : Char} {l : List Char}
    (hc : c ∈ l) (hp : p c = false) : c ∈ l.dropWhile p := by
  induction l with
  | nil => cases hc
  | cons a t ih =>
    rw [List.dropWhile_cons]
    split
    · rcases List.mem_cons.mp hc with h | h
      · subst h; simp_all
      · exact ih h
    · exact hc

lemma mem_stripList {c : Char} {l : List Char} (hc : c ∈ l)
    (hw : isWs c = false) : c ∈ stripList l := by
  unfold stripList
  rw [List.mem_reverse]
  apply mem_dropWhile_of_mem _ hw
  rw [List.mem_reverse]
  exact mem_dropWhile_of_mem hc hw

lemma mem_trimHyphens {c : Char} {l : List Char} (hc : c ∈ l)
    (hh : c ≠ '-') : c ∈ trimHyphens l := by
  unfold trimHyphens
  rw [List.mem_reverse]
  apply mem_dropWhile_of_mem _ (by simpa using hh)
  rw [List.mem_reverse]
  exact mem_dropWhile_of_mem hc (by simpa using hh)

lemma lowerChar_alnum {c : Char} (h : isAsciiAlnum c = true) :
    isLowerAlnum (lowerChar c) = true := by
  unfold isAsciiAlnum at h
  unfold lowerChar isLowerAlnum
  simp only [Bool.or_eq_true, Bool.and_eq_true, decide_eq_true_eq] at h
  rcases h with (h | h) | h
  · rw [if_pos (by exact ⟨h.1, h.2⟩)]
    have hv : Nat.isValidChar (c.toNat + 32) := Or.inl (by omega)
    have ht : (Char.ofNat (c.toNat + 32)).toNat = c.toNat + 32 := by
      rw [Char.ofNat, dif_pos hv]
      rfl
    simp only [Bool.or_eq_true, Bool.and_eq_true, decide_eq_true_eq, ht]
    omega
  · have h1 : ¬('A' ≤ c ∧ c ≤ 'Z') := by
      intro hc
      have : (65 ≤ c.toNat ∧ c.toNat ≤ 90) := hc
      omega
    have h2 : c ≠ 'Æ' := by
      intro he
      have hn : c.toNat = 198 := by rw [he]; decide
      omega
    have h3 : c ≠ 'Ø' := by
      intro he
      have hn : c.toNat = 216 := by rw [he]; decide
      omega
    have h4 : c ≠ 'Å' := by
      intro he
      have hn : c.toNat = 197 := by rw [he]; decide
      omega
    rw [if_neg h1, if_neg h2, if_neg h3, if_neg h4]
    simp only [Bool.or_eq_true, Bool.and_eq_true, decide_eq_true_eq]
    omega
  · have h1 : ¬('A' ≤ c ∧ c ≤ 'Z') := by
      intro hc
      have : (65 ≤ c.toNat ∧ c.toNat ≤ 90) := hc
      omega
    have h2 : c ≠ 'Æ' := by
      intro he
      have hn : c.toNat = 198 := by rw [he]; decide
      omega
    have h3 : c ≠ 'Ø' := by
      intro he
      have hn : c.toNat = 216 := by rw [he]; decide
      omega
    have h4 : c ≠ 'Å' := by
      intro he
      have hn : c.toNat = 197 := by rw [he]; decide
      omega
    rw [if_neg h1, if_neg h2, if_neg h3, if_neg h4]
    simp only [Bool.or_eq_true, Bool.and_eq_true, decide_eq_true_eq]
    omega

end SkuKey

namespace SkuKey

lemma toNat_ne_of_ne_lit {c d : Char} {n : ℕ} (hn : d.toNat = n)
    (h : c.toNat ≠ n) : c ≠ d := by
  intro he
  rw [he, hn] at h
  exact h rfl

lemma lowerAlnum_bounds {c : Char} (h : isLowerAlnum c = true) :
    (97 ≤ c.toNat ∧ c.toNat ≤ 122) ∨ (48 ≤ c.toNat ∧ c.toNat ≤ 57) := by
  unfold isLowerAlnum at h
  simpa only [Bool.or_eq_true, Bool.and_eq_true, decide_eq_true_eq] using h

lemma lowerAlnum_not_danish {c : Char} (h : isLowerAlnum c = true) :
    c ≠ 'æ' ∧ c ≠ 'ø' ∧ c ≠ 'å' ∧ c ≠ 'Æ' ∧ c ≠ 'Ø' ∧ c ≠ 'Å' := by
  have hb := lowerAlnum_bounds h
  refine ⟨toNat_ne_of_ne_lit (n := 230) (by decide) ?_,
    toNat_ne_of_ne_lit (n := 248) (by decide) ?_,
    toNat_ne_of_ne_lit (n := 229) (by decide) ?_,
    toNat_ne_of_ne_lit (n := 198) (by decide) ?_,
    toNat_ne_of_ne_lit (n := 216) (by decide) ?_,
    toNat_ne_of_ne_lit (n := 197) (by decide) ?_⟩ <;>
    omega

lemma mem_replaceDanish {c : Char} {l : List Char} (hc : c ∈ l)
    (h : isLowerAlnum c = true) : c ∈ replaceDanish l := by
  obtain ⟨h1, h2, h3, h4, h5, h6⟩ := lowerAlnum_not_danish h
  unfold replaceDanish
  rw [List.mem_flatMap]
  exact ⟨c, hc, by simp [h1, h2, h3, h4, h5, h6]⟩

lemma lowerAlnum_not_ws {c : Char} (h : isLowerAlnum c = true) :
    isWs c = false := by
  have hb := lowerAlnum_bounds h
  have g1 : c ≠ ' ' := toNat_ne_of_ne_lit (n := 32) (by decide) (by omega)
  have g2 : c ≠ '\t' := toNat_ne_of_ne_lit (n := 9) (by decide) (by omega)
  have g3 : c ≠ '\n' := toNat_ne_of_ne_lit (n := 10) (by decide) (by omega)
  have g4 : c ≠ '\r' := toNat_ne_of_ne_lit (n := 13) (by decide) (by omega)
  have g5 : c ≠ '\x0b' := toNat_ne_of_ne_lit (n := 11) (by decide) (by omega)
  have g6 : c ≠ '\x0c' := toNat_ne_of_ne_lit (n := 12) (by decide) (by omega)
  simp [isWs, g1, g2, g3, g4, g5, g6]

lemma lowerAlnum_not_hyphen {c : Char} (h : isLowerAlnum c = true) :
    c ≠ '-' := by
  have hb := lowerAlnum_bounds h
  exact toNat_ne_of_ne_lit (n := 45) (by decide) (by omega)

lemma lowerAlnum_allowed {c : Char} (h : isLowerAlnum c = true) :
    isAllowedChar c = true := by
  have hb := lowerAlnum_bounds h
  unfold isAllowedChar
  simp only [Bool.or_eq_true, Bool.and_eq_true, decide_eq_true_eq]
  rcases hb with h2 | h2
  · exact Or.inl (Or.inl (Or.inl ⟨h2.1, h2.2⟩))
  · exact Or.inl (Or.inl (Or.inr ⟨h2.1, h2.2⟩))

lemma mem_wsToHyphenAux {c : Char} {l : List Char} {b : Bool} (hc : c ∈ l)
    (hw : isWs c = false) : c ∈ wsToHyphenAux l b := by
  induction l generalizing b with
  | nil => cases hc
  | cons a t ih =>
    rcases List.mem_cons.mp hc with h | h
    · subst h
      unfold wsToHyphenAux
      rw [if_neg (by simp [hw])]
      exact List.mem_cons_self _ _
    · unfold wsToHyphenAux
      split
      · split
        · exact ih h
        · exact List.mem_cons_of_mem _ (ih h)
      · exact List.mem_cons_of_mem _ (ih h)

lemma mem_collapseHyphensAux {c : Char} {l : List Char} {b : Bool}
    (hc : c ∈ l) (hh : c ≠ '-') : c ∈ collapseHyphensAux l b := by
  induction l generalizing b with
  | nil => cases hc
  | cons a t ih =>
    rcases List.mem_cons.mp hc with h | h
    · subst h
      unfold collapseHyphensAux
      rw [if_neg hh]
      exact List.mem_cons_self _ _
    · unfold collapseHyphensAux
      split
      · split
        · exact ih h
        · exact List.mem_cons_of_mem _ (ih h)
      · exact List.mem_cons_of_mem _ (ih h)

/-- A product containing an ASCII letter or digit survives normalization. -/
lemma normalize_text_of_alnum {s : String}
    (h : ∃ c ∈ s.data, isAsciiAlnum c = true) :
    ∃ t, normalize_text (some s) = some t ∧ t.data ≠ [] := by
  obtain ⟨c, hc, hal⟩ := h
  have hs : s ≠ "" := by
    intro he
    subst he
    cases hc
  have hmap : lowerChar c ∈ (pyLower s).data := by
    unfold pyLower
    exact List.mem_map_of_mem lowerChar hc
  have hla : isLowerAlnum (lowerChar c) = true := lowerChar_alnum hal
  have h1 : lowerChar c ∈ stripList (pyLower s).data :=
    mem_stripList hmap (lowerAlnum_not_ws hla)
  have h2 : lowerChar c ∈ replaceDanish (stripList (pyLower s).data) :=
    mem_replaceDanish h1 hla
  have h3 : lowerChar c ∈
      (replaceDanish (stripList (pyLower s).data)).filter isAllowedChar :=
    List.mem_filter.mpr ⟨h2, lowerAlnum_allowed hla⟩
  have h4 := mem_wsToHyphenAux (b := false) h3 (lowerAlnum_not_ws hla)
  have h5 := mem_collapseHyphensAux (b := false) h4 (lowerAlnum_not_hyphen hla)
  have h6 := mem_trimHyphens h5 (lowerAlnum_not_hyphen hla)
  simp only [normalize_text]
  rw [if_neg hs]
  have hne : trimHyphens (collapseHyphensAux (wsToHyphenAux
      ((replaceDanish (stripList (pyLower s).data)).filter isAllowedChar)
      false) false) ≠ [] := by
    intro he
    rw [he] at h6
    cases h6
  rw [if_neg hne]
  exact ⟨_, rfl, by simpa using hne⟩

end SkuKey

namespace SkuKey

lemma mem_wsToHyphenAux_src {c : Char} {l : List Char} {b : Bool}
    (hc : c ∈ wsToHyphenAux l b) : c = '-' ∨ (c ∈ l ∧ isWs c = false) := by
  induction l generalizing b with
  | nil => cases hc
  | cons a t ih =>
    unfold wsToHyphenAux at hc
    by_cases ha : isWs a = true
    · rw [if_pos ha] at hc
      rcases b with _ | _
      · simp only [Bool.false_eq_true, if_false] at hc
        rcases List.mem_cons.mp hc with h | h
        · exact Or.inl h
        · rcases ih h with h2 | h2
          · exact Or.inl h2
          · exact Or.inr ⟨List.mem_cons_of_mem _ h2.1, h2.2⟩
      · simp only [if_true] at hc
        rcases ih hc with h2 | h2
        · exact Or.inl h2
        · exact Or.inr ⟨List.mem_cons_of_mem _ h2.1, h2.2⟩
    · rw [if_neg ha] at hc
      rcases List.mem_cons.mp hc with h | h
      · subst h
        exact Or.inr ⟨List.mem_cons_self _ _, by simpa using ha⟩
      · rcases ih h with h2 | h2
        · exact Or.inl h2
        · exact Or.inr ⟨List.mem_cons_of_mem _ h2.1, h2.2⟩

lemma mem_collapseHyphensAux_src {c : Char} {l : List Char} {b : Bool}
    (hc : c ∈ collapseHyphensAux l b) : c ∈ l := by
  induction l generalizing b with
  | nil => cases hc
  | cons a t ih =>
    unfold collapseHyphensAux at hc
    by_cases ha : a = '-'
    · rw [if_pos ha] at hc
      rcases b with _ | _
      · simp only [Bool.false_eq_true, if_false] at hc
        rcases List.mem_cons.mp hc with h | h
        · subst h; exact ha ▸ List.mem_cons_self _ _
        · exact List.mem_cons_of_mem _ (ih h)
      · simp only [if_true] at hc
        exact List.mem_cons_of_mem _ (ih hc)
    · rw [if_neg ha] at hc
      rcases List.mem_cons.mp hc with h | h
      · subst h; exact List.mem_cons_self _ _
      · exact List.mem_cons_of_mem _ (ih h)

lemma mem_trimHyphens_src {c : Char} {l : List Char}
    (hc : c ∈ trimHyphens l) : c ∈ l := by
  unfold trimHyphens at hc
  rw [List.mem_reverse] at hc
  have h1 := (List.dropWhile_sublist _).subset hc
  rw [List.mem_reverse] at h1
  exact (List.dropWhile_sublist _).subset h1

/-- Every character of a normalized text is lowercase alphanumeric or a
hyphen; in particular no pipe. -/
lemma normalize_text_chars {s t : String}
    (h : normalize_text (some s) = some t) :
    ∀ c ∈ t.data, isOutChar c = true := by
  intro c hc
  simp only [normalize_text] at h
  by_cases hs : s = ""
  · rw [if_pos hs] at h; cases h
  · rw [if_neg hs] at h
    set r2 := (replaceDanish (stripList (pyLower s).data)).filter isAllowedChar with hr2
    by_cases hne : trimHyphens (collapseHyphensAux (wsToHyphenAux r2 false) false) = []
    · rw [if_pos hne] at h; cases h
    · rw [if_neg hne] at h
      have ht : t.data = trimHyphens (collapseHyphensAux (wsToHyphenAux r2 false) false) := by
        have := Option.some.inj h
        rw [← this]
      rw [ht] at hc
      have h1 := mem_collapseHyphensAux_src (mem_trimHyphens_src hc)
      rcases mem_wsToHyphenAux_src h1 with h2 | h2
      · simp [isOutChar, h2]
      · have h3 := (List.mem_filter.mp h2.1).2
        unfold isAllowedChar at h3
        unfold isOutChar isLowerAlnum
        simp only [Bool.or_eq_true, Bool.and_eq_true, decide_eq_true_eq] at h3 ⊢
        rcases h3 with ((ha | ha) | ha) | ha
        · exact Or.inl (Or.inl ⟨ha.1, ha.2⟩)
        · exact Or.inl (Or.inr ⟨ha.1, ha.2⟩)
        · exact Or.inr ha
        · rw [h2.2] at ha; cases ha

lemma outChar_ne_pipe {c : Char} (h : isOutChar c = true) : c ≠ '|' := by
  unfold isOutChar at h
  simp only [Bool.or_eq_true, decide_eq_true_eq] at h
  rcases h with h | h
  · have hb := lowerAlnum_bounds h
    exact toNat_ne_of_ne_lit (n := 124) (by decide) (by omega)
  · subst h
    decide

end SkuKey

namespace SkuKey

lemma splitOnPipe_no_pipe {p : List Char} (hp : ∀ c ∈ p, c ≠ '|') :
    splitOnPipe p = [p] := by
  induction p with
  | nil => rfl
  | cons a q ih =>
    unfold splitOnPipe
    rw [ih (fun c hc => hp c (List.mem_cons_of_mem a hc))]
    simp [hp a (List.mem_cons_self a q)]

lemma splitOnPipe_append {p : List Char} (l : List Char)
    (hp : ∀ c ∈ p, c ≠ '|') {h : List Char} {t : List (List Char)}
    (heq : splitOnPipe l = h :: t) :
    splitOnPipe (p ++ l) = (p ++ h) :: t := by
  induction p with
  | nil => simpa using heq
  | cons a q ih =>
    have ha : a ≠ '|' := hp a (List.mem_cons_self a q)
    simp only [List.cons_append, splitOnPipe, List.append_eq]
    rw [ih (fun c hc => hp c (List.mem_cons_of_mem a hc))]
    simp [ha]

lemma splitOnPipe_join (ps : List (List Char)) (hne : ps ≠ [])
    (hps : ∀ p ∈ ps, ∀ c ∈ p, c ≠ '|') :
    splitOnPipe (joinPipeCh ps) = ps := by
  induction ps with
  | nil => exact absurd rfl hne
  | cons p rest ih =>
    cases rest with
    | nil =>
      show splitOnPipe (joinPipeCh [p]) = [p]
      unfold joinPipeCh
      exact splitOnPipe_no_pipe (hps p (List.mem_cons_self _ _))
    | cons p2 rest2 =>
      have hrec : splitOnPipe (joinPipeCh (p2 :: rest2)) = p2 :: rest2 :=
        ih (by simp) (fun q hq => hps q (List.mem_cons_of_mem p hq))
      have hstep : splitOnPipe ('|' :: joinPipeCh (p2 :: rest2)) =
          [] :: p2 :: rest2 := by
        unfold splitOnPipe
        rw [hrec]
        simp
      show splitOnPipe (p ++ '|' :: joinPipeCh (p2 :: rest2)) = p :: p2 :: rest2
      rw [splitOnPipe_append _ (hps p (List.mem_cons_self _ _)) hstep]
      simp

lemma digitChar_val {n : ℕ} (h : n < 10) : charVal (digitChar n) = n := by
  interval_cases n <;> decide

lemma digitChar_isDigit {n : ℕ} (h : n < 10) :
    isDigitChar (digitChar n) = true := by
  interval_cases n <;> decide

lemma natToRevDigits_all_digits (fuel n : ℕ) :
    ∀ c ∈ natToRevDigits fuel n, isDigitChar c = true := by
  induction fuel generalizing n with
  | zero => intro c hc; cases hc
  | succ fuel ih =>
    intro c hc
    unfold natToRevDigits at hc
    by_cases hn : n < 10
    · rw [if_pos hn] at hc
      rcases List.mem_cons.mp hc with h | h
      · subst h; exact digitChar_isDigit hn
      · cases h
    · rw [if_neg hn] at hc
      rcases List.mem_cons.mp hc with h | h
      · subst h; exact digitChar_isDigit (Nat.mod_lt _ (by norm_num))
      · exact ih _ _ h

lemma digitsToNat_snoc (l : List Char) (c : Char) :
    digitsToNat (l ++ [c]) = 10 * digitsToNat l + charVal c := by
  unfold digitsToNat
  rw [List.foldl_append]
  rfl

lemma natToRevDigits_val (fuel : ℕ) : ∀ n, n < 10 ^ fuel →
    digitsToNat (natToRevDigits fuel n).reverse = n := by
  induction fuel with
  | zero =>
    intro n h
    interval_cases n
    rfl
  | succ fuel ih =>
    intro n h
    unfold natToRevDigits
    by_cases hn : n < 10
    · rw [if_pos hn]
      show digitsToNat [digitChar n] = n
      show 10 * 0 + charVal (digitChar n) = n
      rw [digitChar_val hn]
      omega
    · rw [if_neg hn]
      rw [List.reverse_cons, digitsToNat_snoc]
      have hdiv : n / 10 < 10 ^ fuel := by
        rw [Nat.div_lt_iff_lt_mul (by norm_num)]
        calc n < 10 ^ (fuel + 1) := h
        _ = 10 ^ fuel * 10 := by ring
      rw [ih _ hdiv, digitChar_val (Nat.mod_lt _ (by norm_num))]
      omega

lemma natToRevDigits_ne_nil (fuel n : ℕ) :
    natToRevDigits (fuel + 1) n ≠ [] := by
  unfold natToRevDigits
  split <;> simp

lemma nat_lt_pow_succ (n : ℕ) : n < 10 ^ (n + 1) := by
  calc n < 10 ^ n := Nat.lt_pow_self (by norm_num) n
  _ ≤ 10 ^ (n + 1) := Nat.pow_le_pow_right (by norm_num) (Nat.le_succ n)

lemma digitsToNat_natToString (n : ℕ) :
    digitsToNat (natToString n).data = n :=
  natToRevDigits_val (n + 1) n (nat_lt_pow_succ n)

lemma natToString_all_digits (n : ℕ) :
    ∀ c ∈ (natToString n).data, isDigitChar c = true := by
  intro c hc
  have := List.mem_reverse.mp hc
  exact natToRevDigits_all_digits _ _ c this

lemma natToString_ne_nil (n : ℕ) : (natToString n).data ≠ [] := by
  unfold natToString
  simpa using natToRevDigits_ne_nil n n

lemma takeWhile_append_all {p : Char → Bool} {l1 : List Char}
    (l2 : List Char) (h1 : ∀ c ∈ l1, p c = true) :
    (l1 ++ l2).takeWhile p = l1 ++ l2.takeWhile p := by
  induction l1 with
  | nil => rfl
  | cons a t ih =>
    simp only [List.cons_append, List.takeWhile_cons,
      h1 a (List.mem_cons_self a t), if_true,
      ih (fun c hc => h1 c (List.mem_cons_of_mem a hc))]

lemma dropWhile_append_all {p : Char → Bool} {l1 : List Char}
    (l2 : List Char) (h1 : ∀ c ∈ l1, p c = true) :
    (l1 ++ l2).dropWhile p = l2.dropWhile p := by
  induction l1 with
  | nil => rfl
  | cons a t ih =>
    simp only [List.cons_append, List.dropWhile_cons,
      h1 a (List.mem_cons_self a t), if_true,
      ih (fun c hc => h1 c (List.mem_cons_of_mem a hc))]

end SkuKey

namespace SkuKey

lemma pyRoundInt_natCast (m : ℕ) : pyRoundInt (m : ℚ) = m := by
  unfold pyRoundInt
  rw [Int.floor_natCast]
  rw [if_pos]
  simp

lemma intToString_natCast (m : ℕ) : intToString (m : ℤ) = natToString m := by
  unfold intToString
  rw [if_neg (by omega)]
  simp

lemma format_amount_base {v : ℚ} {m : ℕ} (u : String)
    (hu : u ∈ (["ml", "g", "l", "dl", "cl", "kg"] : List String))
    (hm : v * amountFactor u = (m : ℚ)) :
    format_amount (some v) (some u) = natToString m ++ amountBaseUnit u := by
  simp only [List.mem_cons, List.mem_singleton, List.not_mem_nil, or_false] at hu
  rcases hu with rfl | rfl | rfl | rfl | rfl | rfl
  · have h1 : format_amount (some v) (some "ml") =
        intToString (pyRoundInt (v)) ++ "ml" := rfl
    have h2 : amountFactor "ml" = 1 := rfl
    have h3 : amountBaseUnit "ml" = "ml" := rfl
    rw [h2] at hm
    rw [h1, h3, show (v : ℚ) = (m : ℚ) from by rw [← hm]; ring,
      pyRoundInt_natCast, intToString_natCast]
  · have h1 : format_amount (some v) (some "g") =
        intToString (pyRoundInt (v)) ++ "g" := rfl
    have h2 : amountFactor "g" = 1 := rfl
    have h3 : amountBaseUnit "g" = "g" := rfl
    rw [h2] at hm
    rw [h1, h3, show (v : ℚ) = (m : ℚ) from by rw [← hm]; ring,
      pyRoundInt_natCast, intToString_natCast]
  · have h1 : format_amount (some v) (some "l") =
        intToString (pyRoundInt (v * 1000)) ++ "ml" := rfl
    have h2 : amountFactor "l" = 1000 := rfl
    have h3 : amountBaseUnit "l" = "ml" := rfl
    rw [h2] at hm
    rw [h1, h3, show (v * 1000 : ℚ) = (m : ℚ) from by rw [← hm],
      pyRoundInt_natCast, intToString_natCast]
  · have h1 : format_amount (some v) (some "dl") =
        intToString (pyRoundInt (v * 100)) ++ "ml" := rfl
    have h2 : amountFactor "dl" = 100 := rfl
    have h3 : amountBaseUnit "dl" = "ml" := rfl
    rw [h2] at hm
    rw [h1, h3, show (v * 100 : ℚ) = (m : ℚ) from by rw [← hm],
      pyRoundInt_natCast, intToString_natCast]
  · have h1 : format_amount (some v) (some "cl") =
        intToString (pyRoundInt (v * 10)) ++ "ml" := rfl
    have h2 : amountFactor "cl" = 10 := rfl
    have h3 : amountBaseUnit "cl" = "ml" := rfl
    rw [h2] at hm
    rw [h1, h3, show (v * 10 : ℚ) = (m : ℚ) from by rw [← hm],
      pyRoundInt_natCast, intToString_natCast]
  · have h1 : format_amount (some v) (some "kg") =
        intToString (pyRoundInt (v * 1000)) ++ "g" := rfl
    have h2 : amountFactor "kg" = 1000 := rfl
    have h3 : amountBaseUnit "kg" = "g" := rfl
    rw [h2] at hm
    rw [h1, h3, show (v * 1000 : ℚ) = (m : ℚ) from by rw [← hm],
      pyRoundInt_natCast, intToString_natCast]

end SkuKey

namespace SkuKey

lemma stringMk_data (s : String) : String.mk s.data = s := rfl

lemma data_append (a b : String) : (a ++ b).data = a.data ++ b.data := rfl

lemma matchAmount_base (m : ℕ) (u : List Char)
    (hu : u.takeWhile isWordChar = u) (hne : u ≠ [])
    (hd : u.takeWhile isDigitChar = []) :
    matchAmount ((natToString m).data ++ u) = some (m, u) := by
  unfold matchAmount
  rw [takeWhile_append_all _ (natToString_all_digits m),
    dropWhile_append_all _ (natToString_all_digits m), hd, List.append_nil]
  rw [if_neg (by simpa using natToString_ne_nil m)]
  have hdrop : u.dropWhile isDigitChar = u := by
    cases u with
    | nil => rfl
    | cons a t =>
      rw [List.dropWhile_cons]
      rw [List.takeWhile_cons] at hd
      split at hd
      · cases hd
      · simp_all [List.dropWhile_cons]
  rw [hdrop, hu]
  cases u with
  | nil => exact absurd rfl hne
  | cons a t => rw [digitsToNat_natToString]

lemma amt_ne_null (m : ℕ) (u : List Char)
    (hd : u.takeWhile isDigitChar = []) (hne : u ≠ []) :
    (natToString m).data ++ u ≠ "null".data := by
  intro he
  rcases hds : (natToString m).data with _ | ⟨d, rest⟩
  · exact natToString_ne_nil m hds
  · have hdd : isDigitChar d = true := by
      apply natToString_all_digits m
      rw [hds]
      exact List.mem_cons_self _ _
    rw [hds] at he
    have : d = 'n' := by
      have := congrArg (fun l => l.headI) he
      simpa using this
    rw [this] at hdd
    cases hdd

lemma digit_ne_pipe {c : Char} (h : isDigitChar c = true) : c ≠ '|' := by
  unfold isDigitChar at h
  simp only [Bool.and_eq_true, decide_eq_true_eq] at h
  have h1 : 48 ≤ c.toNat := h.1
  have h2 : c.toNat ≤ 57 := h.2
  exact toNat_ne_of_ne_lit (n := 124) (by decide) (by omega)

lemma natToString_no_pipe (m : ℕ) : ∀ c ∈ (natToString m).data, c ≠ '|' :=
  fun c hc => digit_ne_pipe (natToString_all_digits m c hc)

lemma null_no_pipe : ∀ c ∈ ("null" : String).data, c ≠ '|' := by decide

lemma normalizeOrNull_no_pipe (o : Option String) :
    ∀ c ∈ ((normalize_text o).getD "null").data, c ≠ '|' := by
  rcases ho : normalize_text o with _ | t
  · simpa using null_no_pipe
  · intro c hc
    simp only [Option.getD_some] at hc
    cases o with
    | none => cases ho
    | some s => exact outChar_ne_pipe (normalize_text_chars ho c hc)

end SkuKey

namespace SkuKey

lemma asciiAlnum_not_ws {c : Char} (h : isAsciiAlnum c = true) :
    isWs c = false := by
  unfold isAsciiAlnum at h
  simp only [Bool.or_eq_true, Bool.and_eq_true, decide_eq_true_eq] at h
  have hb : 48 ≤ c.toNat := by rcases h with (h | h) | h <;> omega
  have g1 : c ≠ ' ' := toNat_ne_of_ne_lit (n := 32) (by decide) (by omega)
  have g2 : c ≠ '\t' := toNat_ne_of_ne_lit (n := 9) (by decide) (by omega)
  have g3 : c ≠ '\n' := toNat_ne_of_ne_lit (n := 10) (by decide) (by omega)
  have g4 : c ≠ '\r' := toNat_ne_of_ne_lit (n := 13) (by decide) (by omega)
  have g5 : c ≠ '\x0b' := toNat_ne_of_ne_lit (n := 11) (by decide) (by omega)
  have g6 : c ≠ '\x0c' := toNat_ne_of_ne_lit (n := 12) (by decide) (by omega)
  simp [isWs, g1, g2, g3, g4, g5, g6]

lemma intToString_no_pipe (z : ℤ) : ∀ c ∈ (intToString z).data, c ≠ '|' := by
  intro c hc
  unfold intToString at hc
  split at hc
  · rw [data_append] at hc
    rcases List.mem_append.mp hc with h | h
    · have : c = '-' := by simpa using h
      subst this
      decide
    · exact natToString_no_pipe _ c h
  · exact natToString_no_pipe _ c hc

lemma format_amount_no_pipe (value : Option ℚ) (unit : Option String)
    (hu : value = none ∨ unit = none ∨
      (∀ u, unit = some u → ∀ c ∈ (pyStrip (pyLower u)).data, c ≠ '|')) :
    ∀ c ∈ (format_amount value unit).data, c ≠ '|' := by
  intro c hc
  rcases value with _ | v
  · exact null_no_pipe c hc
  · rcases unit with _ | u
    · exact null_no_pipe c hc
    · have hu2 : ∀ ch ∈ (pyStrip (pyLower u)).data, ch ≠ '|' := by
        rcases hu with h | h | h
        · cases h
        · cases h
        · exact h u rfl
      simp only [format_amount] at hc
      split_ifs at hc <;>
      · rw [data_append] at hc
        rcases List.mem_append.mp hc with h | h
        · exact intToString_no_pipe _ c h
        · dsimp only at h
          first
          | exact fun he => by subst he; revert h; decide
          | exact hu2 c h

/-- C10 body, part 1: with an alphanumeric product and a pipe-free unit,
`generate_sku_key` returns a key of exactly five pipe-separated parts. -/
lemma c10_main (brand variant container : Option String) (p : String)
    (value : Option ℚ) (unit : Option String)
    (hal : ∃ c ∈ p.data, isAsciiAlnum c = true)
    (hpipe : value = none ∨ unit = none ∨
      (∀ u, unit = some u → ∀ c ∈ (pyStrip (pyLower u)).data, c ≠ '|')) :
    ∃ k, generate_sku_key brand (some p) variant container value unit =
        some (some k) ∧ (splitOnPipe k.data).length = 5 := by
  obtain ⟨np, hnp, hnpne⟩ := normalize_text_of_alnum hal
  obtain ⟨c0, hc0, hca⟩ := hal
  have hstrip : stripList p.data ≠ [] := by
    have hmem := mem_stripList hc0 (asciiAlnum_not_ws hca)
    intro he
    rw [he] at hmem
    cases hmem
  refine ⟨⟨joinPipeCh
    [((normalize_text brand).getD "null").data, np.data,
     ((normalize_text variant).getD "null").data,
     ((normalize_text container).getD "null").data,
     (format_amount value unit).data]⟩, ?_, ?_⟩
  · simp only [generate_sku_key]
    rw [if_neg hstrip, hnp]
  · show (splitOnPipe (joinPipeCh _)).length = 5
    rw [splitOnPipe_join _ (by simp) ?_]
    · rfl
    · intro q hq
      simp only [List.mem_cons, List.not_mem_nil, or_false] at hq
      rcases hq with rfl | rfl | rfl | rfl | rfl
      · exact normalizeOrNull_no_pipe brand
      · intro ch hch
        exact outChar_ne_pipe (normalize_text_chars hnp ch hch)
      · exact normalizeOrNull_no_pipe variant
      · exact normalizeOrNull_no_pipe container
      · exact format_amount_no_pipe value unit hpipe

end SkuKey

namespace SkuKey

lemma ne_data_of_ne {a b : String} (h : a ≠ b) : a.data ≠ b.data := by
  intro he
  apply h
  rw [← stringMk_data a, ← stringMk_data b, he]

lemma normalize_fix_ne_empty {s : String}
    (h : normalize_text (some s) = some s) : s ≠ "" := by
  intro he
  subst he
  simp [normalize_text] at h

lemma nullToOption_null : nullToOption ("null").data = none := by
  unfold nullToOption
  rw [if_pos rfl]

lemma nullToOption_of_ne {s : String} (h : s ≠ "null") :
    nullToOption s.data = some s := by
  unfold nullToOption
  rw [if_neg (ne_data_of_ne h), stringMk_data]

/-- The brand/variant/container slot of the generated key. -/
lemma slot_eq (o : Option String)
    (h : o = none ∨ ∃ b, o = some b ∧ normalize_text (some b) = some b ∧ b ≠ "null") :
    (nullToOption ((normalize_text o).getD "null").data = o) := by
  rcases h with rfl | ⟨b, rfl, hb, hbn⟩
  · show nullToOption ("null").data = none
    exact nullToOption_null
  · rw [hb]
    show nullToOption b.data = some b
    exact nullToOption_of_ne hbn

lemma slot_no_pipe (o : Option String) :
    ∀ c ∈ ((normalize_text o).getD "null").data, c ≠ '|' :=
  normalizeOrNull_no_pipe o

lemma c8_roundtrip (brand variant container : Option String)
    (product : String) (v : ℚ) (u : String) (m : ℕ)
    (hb : brand = none ∨
      ∃ b, brand = some b ∧ normalize_text (some b) = some b ∧ b ≠ "null")
    (hv : variant = none ∨
      ∃ t, variant = some t ∧ normalize_text (some t) = some t ∧ t ≠ "null")
    (hc : container = none ∨
      ∃ t, container = some t ∧ normalize_text (some t) = some t ∧ t ≠ "null")
    (hp : normalize_text (some product) = some product)
    (hpn : product ≠ "null")
    (hu : u ∈ (["ml", "g", "l", "dl", "cl", "kg"] : List String))
    (hm : v * amountFactor u = (m : ℚ)) :
    ∃ k, generate_sku_key brand (some product) variant container
        (some v) (some u) = some (some k) ∧
      parse_sku_key k = some ⟨brand, some product, variant, container,
        some (natToString m ++ amountBaseUnit u), some m,
        some (amountBaseUnit u)⟩ := by
  have hpe : product ≠ "" := normalize_fix_ne_empty hp
  have hpchars := normalize_text_chars hp
  have hstrip : stripList product.data ≠ [] := by
    rcases hd : product.data with _ | ⟨c0, rest⟩
    · exact absurd (by rw [← stringMk_data product, hd]) hpe
    · have hc0 : c0 ∈ product.data := by rw [hd]; exact List.mem_cons_self _ _
      have hout := hpchars c0 hc0
      have hnw : isWs c0 = false := by
        unfold isOutChar at hout
        simp only [Bool.or_eq_true, decide_eq_true_eq] at hout
        rcases hout with h | h
        · exact lowerAlnum_not_ws h
        · subst h; decide
      have hmem := mem_stripList hc0 hnw
      intro he
      rw [hd] at hmem
      rw [he] at hmem
      cases hmem
  have hbase : amountBaseUnit u ∈ (["ml", "g"] : List String) := by
    fin_cases hu
    all_goals decide
  have hamt : format_amount (some v) (some u) =
      natToString m ++ amountBaseUnit u := format_amount_base u hu hm
  refine ⟨⟨joinPipeCh
    [((normalize_text brand).getD "null").data, product.data,
     ((normalize_text variant).getD "null").data,
     ((normalize_text container).getD "null").data,
     (natToString m ++ amountBaseUnit u).data]⟩, ?_, ?_⟩
  · simp only [generate_sku_key]
    rw [if_neg hstrip, hp, hamt]
  · have hbfree : ∀ c ∈ (natToString m ++ amountBaseUnit u).data, c ≠ '|' := by
      intro c hcm
      rw [data_append] at hcm
      rcases List.mem_append.mp hcm with h | h
      · exact natToString_no_pipe m c h
      · revert h
        rcases List.mem_cons.mp hbase with h2 | h2
        · rw [h2]; exact fun h he => by subst he; revert h; decide
        · rw [List.mem_singleton.mp h2]
          exact fun h he => by subst he; revert h; decide
    have hsplit : splitOnPipe (joinPipeCh
        [((normalize_text brand).getD "null").data, product.data,
         ((normalize_text variant).getD "null").data,
         ((normalize_text container).getD "null").data,
         (natToString m ++ amountBaseUnit u).data]) =
        [((normalize_text brand).getD "null").data, product.data,
         ((normalize_text variant).getD "null").data,
         ((normalize_text container).getD "null").data,
         (natToString m ++ amountBaseUnit u).data] := by
      apply splitOnPipe_join _ (by simp)
      intro q hq
      simp only [List.mem_cons, List.not_mem_nil, or_false] at hq
      rcases hq with rfl | rfl | rfl | rfl | rfl
      · exact slot_no_pipe brand
      · exact fun c hcc => outChar_ne_pipe (hpchars c hcc)
      · exact slot_no_pipe variant
      · exact slot_no_pipe container
      · exact hbfree
    simp only [parse_sku_key]
    rw [hsplit]
    have hunit0 : (amountBaseUnit u).data.takeWhile isWordChar =
        (amountBaseUnit u).data ∧ (amountBaseUnit u).data ≠ [] ∧
        (amountBaseUnit u).data.takeWhile isDigitChar = [] := by
      rcases List.mem_cons.mp hbase with h2 | h2
      · rw [h2]; exact ⟨by decide, by decide, by decide⟩
      · rw [List.mem_singleton.mp h2]; exact ⟨by decide, by decide, by decide⟩
    have hmatch : matchAmount ((natToString m ++ amountBaseUnit u).data) =
        some (m, (amountBaseUnit u).data) := by
      rw [data_append]
      exact matchAmount_base m _ hunit0.1 hunit0.2.1 hunit0.2.2
    have hamt_null : nullToOption ((natToString m ++ amountBaseUnit u).data) =
        some (natToString m ++ amountBaseUnit u) := by
      unfold nullToOption
      rw [if_neg, stringMk_data]
      rw [data_append]
      exact amt_ne_null m _ hunit0.2.2 hunit0.2.1
    have hamt_ne : (natToString m ++ amountBaseUnit u) ≠ "" := by
      intro he
      have := congrArg String.data he
      rw [data_append] at this
      rcases hds : (natToString m).data with _ | ⟨d, rest⟩
      · exact natToString_ne_nil m hds
      · rw [hds] at this
        cases this
    show some _ = some _
    congr 1
    rw [hamt_null]
    simp only [hamt_ne, if_pos, ne_eq, not_false_iff, if_true, hmatch]
    rw [slot_eq brand hb, slot_eq variant hv, slot_eq container hc,
      nullToOption_of_ne hpn]

end SkuKey

namespace SkuKey

lemma c8_roundtrip_noamount (brand variant container : Option String)
    (product : String) (value : Option ℚ) (unit : Option String)
    (hb : brand = none ∨
      ∃ b, brand = some b ∧ normalize_text (some b) = some b ∧ b ≠ "null")
    (hv : variant = none ∨
      ∃ t, variant = some t ∧ normalize_text (some t) = some t ∧ t ≠ "null")
    (hc : container = none ∨
      ∃ t, container = some t ∧ normalize_text (some t) = some t ∧ t ≠ "null")
    (hp : normalize_text (some product) = some product)
    (hpn : product ≠ "null")
    (hnu : value = none ∨ unit = none) :
    ∃ k, generate_sku_key brand (some product) variant container value unit =
        some (some k) ∧
      parse_sku_key k = some ⟨brand, some product, variant, container,
        none, none, none⟩ := by
  have hpe : product ≠ "" := normalize_fix_ne_empty hp
  have hpchars := normalize_text_chars hp
  have hstrip : stripList product.data ≠ [] := by
    rcases hd : product.data with _ | ⟨c0, rest⟩
    · exact absurd (by rw [← stringMk_data product, hd]) hpe
    · have hc0 : c0 ∈ product.data := by rw [hd]; exact List.mem_cons_self _ _
      have hout := hpchars c0 hc0
      have hnw : isWs c0 = false := by
        unfold isOutChar at hout
        simp only [Bool.or_eq_true, decide_eq_true_eq] at hout
        rcases hout with h | h
        · exact lowerAlnum_not_ws h
        · subst h; decide
      have hmem := mem_stripList hc0 hnw
      intro he
      rw [hd] at hmem
      rw [he] at hmem
      cases hmem
  have hamt : format_amount value unit = "null" := by
    rcases hnu with rfl | rfl
    · rfl
    · rcases value with _ | v <;> rfl
  refine ⟨⟨joinPipeCh
    [((normalize_text brand).getD "null").data, product.data,
     ((normalize_text variant).getD "null").data,
     ((normalize_text container).getD "null").data,
     ("null" : String).data]⟩, ?_, ?_⟩
  · simp only [generate_sku_key]
    rw [if_neg hstrip, hp, hamt]
  · have hsplit : splitOnPipe (joinPipeCh
        [((normalize_text brand).getD "null").data, product.data,
         ((normalize_text variant).getD "null").data,
         ((normalize_text container).getD "null").data,
         ("null" : String).data]) =
        [((normalize_text brand).getD "null").data, product.data,
         ((normalize_text variant).getD "null").data,
         ((normalize_text container).getD "null").data,
         ("null" : String).data] := by
      apply splitOnPipe_join _ (by simp)
      intro q hq
      simp only [List.mem_cons, List.not_mem_nil, or_false] at hq
      rcases hq with rfl | rfl | rfl | rfl | rfl
      · exact slot_no_pipe brand
      · exact fun c hcc => outChar_ne_pipe (hpchars c hcc)
      · exact slot_no_pipe variant
      · exact slot_no_pipe container
      · exact null_no_pipe
    simp only [parse_sku_key]
    rw [hsplit]
    show some _ = some _
    congr 1
    rw [nullToOption_null]
    rw [slot_eq brand hb, slot_eq variant hv, slot_eq container hc,
      nullToOption_of_ne hpn]

end SkuKey

/-- C8 amended.  SKU round-trip for already-normalized fields: when brand,
variant and container are absent or fix-points of `normalize_text` other
than the literal string "null", the product is such a fix-point, and the
amount is either absent or has a unit in the conversion table with an
integral base value m, then `parse_sku_key` applied to the generated key
recovers exactly the original brand, product, variant and container, and
the amount as m in base units (ml for volume, g for weight).  The literal
"null" must be excluded because `parse_sku_key` maps the "null"
placeholder back to a missing field. -/
theorem c8_sku_roundtrip :
    (∀ (brand variant container : Option String) (product : String)
        (v : ℚ) (u : String) (m : ℕ),
      (brand = none ∨ ∃ b, brand = some b ∧
        SkuKey.normalize_text (some b) = some b ∧ b ≠ "null") →
      (variant = none ∨ ∃ t, variant = some t ∧
        SkuKey.normalize_text (some t) = some t ∧ t ≠ "null") →
      (container = none ∨ ∃ t, container = some t ∧
        SkuKey.normalize_text (some t) = some t ∧ t ≠ "null") →
      SkuKey.normalize_text (some product) = some product → product ≠ "null" →
      u ∈ (["ml", "g", "l", "dl", "cl", "kg"] : List String) →
      v * SkuKey.amountFactor u = (m : ℚ) →
      ∃ k, SkuKey.generate_sku_key brand (some product) variant container
          (some v) (some u) = some (some k) ∧
        SkuKey.parse_sku_key k = some ⟨brand, some product, variant, container,
          some (SkuKey.natToString m ++ SkuKey.amountBaseUnit u), some m,
          some (SkuKey.amountBaseUnit u)⟩) ∧
    (∀ (brand variant container : Option String) (product : String)
        (value : Option ℚ) (unit : Option String),
      (brand = none ∨ ∃ b, brand = some b ∧
        SkuKey.normalize_text (some b) = some b ∧ b ≠ "null") →
      (variant = none ∨ ∃ t, variant = some t ∧
        SkuKey.normalize_text (some t) = some t ∧ t ≠ "null") →
      (container = none ∨ ∃ t, container = some t ∧
        SkuKey.normalize_text (some t) = some t ∧ t ≠ "null") →
      SkuKey.normalize_text (some product) = some product → product ≠ "null" →
      (value = none ∨ unit = none) →
      ∃ k, SkuKey.generate_sku_key brand (some product) variant container
          value unit = some (some k) ∧
        SkuKey.parse_sku_key k = some ⟨brand, some product, variant, container,
          none, none, none⟩) :=
  ⟨SkuKey.c8_roundtrip, SkuKey.c8_roundtrip_noamount⟩

/-- C8 counterexample.  The normalized brand "null" — a legitimate
fix-point of `normalize_text` — is not recovered: the generated key spells
it exactly like the missing-field placeholder, and `parse_sku_key` returns
brand `None` instead of "null". -/
theorem c8_sku_counterexample :
    SkuKey.normalize_text (some "null") = some "null" ∧
    SkuKey.generate_sku_key (some "null") (some "cola") none none
      (some 330) (some "ml") = some (some "null|cola|null|null|330ml") ∧
    (SkuKey.parse_sku_key "null|cola|null|null|330ml").map
      SkuKey.ParsedSku.brand = some none ∧
    (some (none : Option String)) ≠ some (some "null") := by
  refine ⟨by rfl, ?_, by rfl, by simp⟩
  have hfa : SkuKey.format_amount (some 330) (some "ml") = "330ml" := by
    have h := SkuKey.format_amount_base (v := 330) (m := 330) "ml"
      (by simp) (by rw [show SkuKey.amountFactor "ml" = 1 from rfl]; norm_num)
    rw [h]
    rfl
  simp only [SkuKey.generate_sku_key]
  rw [if_neg (by decide), show SkuKey.normalize_text (some "cola") =
    some "cola" from rfl, hfa]
  rfl

/-- Witness for C8: brand "arla", product "cola", 0.5 l = 500 ml. -/
theorem c8_sku_roundtrip_witness :
    (SkuKey.normalize_text (some "arla") = some "arla" ∧
     SkuKey.normalize_text (some "cola") = some "cola" ∧
     ("cola" : String) ≠ "null" ∧
     ("l" : String) ∈ (["ml", "g", "l", "dl", "cl", "kg"] : List String) ∧
     (1/2 : ℚ) * SkuKey.amountFactor "l" = ((500 : ℕ) : ℚ)) ∧
    (∃ k, SkuKey.generate_sku_key (some "arla") (some "cola") none none
        (some (1/2)) (some "l") = some (some k) ∧
      SkuKey.parse_sku_key k = some ⟨some "arla", some "cola", none, none,
        some (SkuKey.natToString 500 ++ SkuKey.amountBaseUnit "l"), some 500,
        some (SkuKey.amountBaseUnit "l")⟩) := by
  have hm : (1/2 : ℚ) * SkuKey.amountFactor "l" = ((500 : ℕ) : ℚ) := by
    rw [show SkuKey.amountFactor "l" = 1000 from rfl]
    norm_num
  refine ⟨⟨by rfl, by rfl, by decide, by simp, hm⟩, ?_⟩
  exact c8_sku_roundtrip.1 (some "arla") none none "cola" (1/2) "l" 500
    (Or.inr ⟨"arla", rfl, by rfl, by decide⟩) (Or.inl rfl) (Or.inl rfl)
    (by rfl) (by decide) (by simp) hm

/-- C10 amended.  `generate_sku_key` returns (without raising) a key that
splits into exactly five pipe-delimited parts for every input whose
product contains at least one ASCII letter or digit and whose amount unit
— when an amount value is present — contains no pipe after
lowercasing/stripping (every amount value is finite in this rational
embedding).  The product precondition is strictly stronger than the
documented "product is required": the non-blank product "!!!" passes the
blank-guard yet normalizes to None, making the join raise (modelled as the
outer `none`). -/
theorem c10_generate_wellformed :
    (∀ (brand variant container : Option String) (p : String)
        (value : Option ℚ) (unit : Option String),
      (∃ c ∈ p.data, SkuKey.isAsciiAlnum c = true) →
      (value = none ∨ unit = none ∨
        (∀ u, unit = some u → ∀ c ∈ (pyStrip (pyLower u)).data, c ≠ '|')) →
      ∃ k, SkuKey.generate_sku_key brand (some p) variant container value
          unit = some (some k) ∧ (SkuKey.splitOnPipe k.data).length = 5) ∧
    (SkuKey.generate_sku_key none (some "!!!") none none none none = none ∧
      pyStrip "!!!" ≠ "") :=
  ⟨SkuKey.c10_main, by rfl, by decide⟩

/-- C10 counterexample.  An amount unit containing a pipe leaks into the
key unfiltered: the generated key splits into six parts, not five, so the
claim's precondition (which does not restrict the unit) is too weak. -/
theorem c10_generate_counterexample :
    SkuKey.generate_sku_key none (some "a") none none (some 5)
      (some "m|l") = some (some "null|a|null|null|5m|l") ∧
    (SkuKey.splitOnPipe ("null|a|null|null|5m|l" : String).data).length = 6 := by
  constructor
  · have hfa : SkuKey.format_amount (some 5) (some "m|l") = "5m|l" := by
      show SkuKey.intToString (pyRoundInt 5) ++ "m|l" = "5m|l"
      rw [show (5:ℚ) = ((5:ℕ):ℚ) by norm_num, SkuKey.pyRoundInt_natCast,
        SkuKey.intToString_natCast]
      rfl
    simp only [SkuKey.generate_sku_key]
    rw [if_neg (by decide), show SkuKey.normalize_text (some "a") =
      some "a" from rfl, hfa]
    rfl
  · rfl

/-- Witness for C10 at product "Cola" with no amount. -/
theorem c10_generate_wellformed_witness :
    ((∃ c ∈ ("Cola" : String).data, SkuKey.isAsciiAlnum c = true) ∧
     (none : Option ℚ) = none) ∧
    (∃ k, SkuKey.generate_sku_key none (some "Cola") none none none none =
        some (some k) ∧ (SkuKey.splitOnPipe k.data).length = 5) :=
  ⟨⟨by decide, rfl⟩,
   c10_generate_wellformed.1 none none none "Cola" none none (by decide)
     (Or.inl rfl)⟩
